import Mathlib

/-
Verification of the normalization / recovery layer of the student study
planner (src/app.py) against its natural-language specification.

The development is a shallow embedding of the normalization code path of
the `plan` view function in `app.py` (lines 229-464) together with the
helper functions it calls (`try_load_json`, `list_to_date_dict`,
`parse_schedule_from_text`, `extract_json_from_text`,
`salvage_notes_from_raw`, `naive_parse_quizzes_from_text`,
`extract_topics_from_syllabus_text`).

Modelling conventions:
- Python values are modelled by the inductive type `PyVal` (None, bool,
  int, str, list, dict).  Dict keys are modelled as strings: every dict
  that the normalization layer builds or decodes from JSON is
  string-keyed, and the code's only key-type test (`isinstance(k, str)`
  inside `keys_are_dates`) is therefore always true in the model.
- Machine behaviour that can raise is modelled with `Except String`,
  the string naming the Python exception class.  `try`/`except` blocks
  in the source become explicit fallbacks on the error case.
- `json.loads` is modelled by an executable recursive-descent parser
  (`jsonParse`) for JSON objects, arrays, strings (with the usual
  escapes), integer numerals, `true`, `false` and `null`.  Fractional
  and exponent numerals (floats) are outside the model and are treated
  as parse failures.
- The regex scans of the source are embedded as character-level
  scanners that follow `re`'s leftmost/non-overlapping `finditer`
  semantics for the concrete patterns in the source.  Degenerate
  backtracking into all-whitespace tails (which can only yield captured
  topic text that strips to the empty string or to a lone separator
  character) is approximated by a scan failure; no property proved here
  depends on those inputs.
- `date.today()` is passed in as an explicit proleptic-Gregorian
  ordinal (`today : Nat`), exactly `datetime.date.toordinal`'s value.
  Date arithmetic mirrors CPython's `_ymd2ord`/`_ord2ymd` and is
  bounds-checked against `date.min`/`date.max`, so an out-of-range
  result models Python's `OverflowError`.
-/

set_option maxRecDepth 10000

namespace StudyPlanner

/-- Characters that are written via their code points so that the source
file contains no literal brace, backtick or quote characters. -/
def lbrace : Char := Char.ofNat 123

def rbrace : Char := Char.ofNat 125

def btick : Char := Char.ofNat 96

def squote : Char := Char.ofNat 39

def dquote : Char := Char.ofNat 34

/-- Model of a Python value as handled by the normalization layer. -/
inductive PyVal where
  | none
  | bool (b : Bool)
  | int (n : Int)
  | str (s : String)
  | list (xs : List PyVal)
  | dict (entries : List (String × PyVal))
  deriving Repr

mutual

def pvDecEq : (a b : PyVal) → Decidable (a = b)
  | .none, .none => isTrue rfl
  | .bool x, .bool y =>
      if h : x = y then isTrue (by rw [h]) else isFalse (by simp [h])
  | .int x, .int y =>
      if h : x = y then isTrue (by rw [h]) else isFalse (by simp [h])
  | .str x, .str y =>
      if h : x = y then isTrue (by rw [h]) else isFalse (by simp [h])
  | .list xs, .list ys =>
      match pvDecEqList xs ys with
      | isTrue h => isTrue (by rw [h])
      | isFalse h => isFalse (by simp [h])
  | .dict xs, .dict ys =>
      match pvDecEqEntries xs ys with
      | isTrue h => isTrue (by rw [h])
      | isFalse h => isFalse (by simp [h])
  | .none, .bool _ => isFalse nofun
  | .none, .int _ => isFalse nofun
  | .none, .str _ => isFalse nofun
  | .none, .list _ => isFalse nofun
  | .none, .dict _ => isFalse nofun
  | .bool _, .none => isFalse nofun
  | .bool _, .int _ => isFalse nofun
  | .bool _, .str _ => isFalse nofun
  | .bool _, .list _ => isFalse nofun
  | .bool _, .dict _ => isFalse nofun
  | .int _, .none => isFalse nofun
  | .int _, .bool _ => isFalse nofun
  | .int _, .str _ => isFalse nofun
  | .int _, .list _ => isFalse nofun
  | .int _, .dict _ => isFalse nofun
  | .str _, .none => isFalse nofun
  | .str _, .bool _ => isFalse nofun
  | .str _, .int _ => isFalse nofun
  | .str _, .list _ => isFalse nofun
  | .str _, .dict _ => isFalse nofun
  | .list _, .none => isFalse nofun
  | .list _, .bool _ => isFalse nofun
  | .list _, .int _ => isFalse nofun
  | .list _, .str _ => isFalse nofun
  | .list _, .dict _ => isFalse nofun
  | .dict _, .none => isFalse nofun
  | .dict _, .bool _ => isFalse nofun
  | .dict _, .int _ => isFalse nofun
  | .dict _, .str _ => isFalse nofun
  | .dict _, .list _ => isFalse nofun

def pvDecEqList : (xs ys : List PyVal) → Decidable (xs = ys)
  | [], [] => isTrue rfl
  | [], _ :: _ => isFalse nofun
  | _ :: _, [] => isFalse nofun
  | x :: xs, y :: ys =>
      match pvDecEq x y, pvDecEqList xs ys with
      | isTrue h1, isTrue h2 => isTrue (by rw [h1, h2])
      | isFalse h1, _ => isFalse (by intro h; injection h; contradiction)
      | _, isFalse h2 => isFalse (by intro h; injection h; contradiction)

def pvDecEqEntries : (es fs : List (String × PyVal)) → Decidable (es = fs)
  | [], [] => isTrue rfl
  | [], _ :: _ => isFalse nofun
  | _ :: _, [] => isFalse nofun
  | (k, v) :: es, (k2, v2) :: fs =>
      match decEq k k2, pvDecEq v v2, pvDecEqEntries es fs with
      | isTrue h0, isTrue h1, isTrue h2 => isTrue (by rw [h0, h1, h2])
      | isFalse h0, _, _ =>
          isFalse (by intro h; injection h with h' _; injection h'; contradiction)
      | _, isFalse h1, _ =>
          isFalse (by intro h; injection h with h' _; injection h'; contradiction)
      | _, _, isFalse h2 => isFalse (by intro h; injection h; contradiction)

end

instance : DecidableEq PyVal := pvDecEq

/-- Association list standing for a Python `dict` with string keys. -/
abbrev PyDict := List (String × PyVal)

/-- `d.get(k)` with default `None`. -/
def dictGet (d : PyDict) (k : String) : Option PyVal :=
  match d with
  | [] => Option.none
  | (k', v) :: rest => if k' = k then Option.some v else dictGet rest k

/-- `d.get(k)` returning Python `None` when the key is absent. -/
def dmget (d : PyDict) (k : String) : PyVal :=
  (dictGet d k).getD .none

/-- `d.get(k, default)`. -/
def dictGetD (d : PyDict) (k : String) (v₀ : PyVal) : PyVal :=
  (dictGet d k).getD v₀

/-- `d[k] = v`: update in place when the key exists (keeping its
position), append otherwise — Python dict insertion semantics. -/
def dictInsert (d : PyDict) (k : String) (v : PyVal) : PyDict :=
  match d with
  | [] => [(k, v)]
  | (k', v') :: rest =>
      if k' = k then (k', v) :: rest else (k', v') :: dictInsert rest k v

/-- Python truthiness (`bool(x)`). -/
def pyTruthy : PyVal → Bool
  | .none => false
  | .bool b => b
  | .int n => n != 0
  | .str s => s != ""
  | .list xs => !xs.isEmpty
  | .dict es => !es.isEmpty

/-- `a or b` (Python), for the value forms the code applies it to. -/
def pyOrV (a b : PyVal) : PyVal :=
  if pyTruthy a then a else b

/-- Membership of a value in the tuple `(None, [], {}, "")` — Python
`in` uses `==`, and only these four shapes compare equal to one of the
tuple's elements. -/
def pyIsNeutral : PyVal → Bool
  | .none => true
  | .list [] => true
  | .dict [] => true
  | .str "" => true
  | _ => false

/-- Whitespace in the sense of `str.strip()` and the regex class `\s`
(ASCII portion; the normalization layer never meets non-ASCII spaces in
any property proved here). -/
def isPySpace (c : Char) : Bool :=
  c = ' ' || c = '\t' || c = '\n' || c = '\r' ||
    c = Char.ofNat 11 || c = Char.ofNat 12

/-- `str.strip()` on a character list. -/
def pyStripL (l : List Char) : List Char :=
  ((l.dropWhile isPySpace).reverse.dropWhile isPySpace).reverse

/-- `str.strip()`. -/
def pyStrip (s : String) : String :=
  String.mk (pyStripL s.data)

def isDig (c : Char) : Bool :=
  '0' ≤ c && c ≤ '9'

/-- ASCII `str.lower()` (the data met by the matching heuristics is
ASCII; Unicode case folding is outside the model). -/
def lowerS (s : String) : String :=
  String.mk (s.data.map Char.toLower)

/-- `needle in hay` for strings: substring containment. -/
def listContainsSub (needle hay : List Char) : Bool :=
  match hay with
  | [] => needle.isEmpty
  | _ :: t => needle.isPrefixOf hay || listContainsSub needle t

def strContainsSub (needle hay : String) : Bool :=
  listContainsSub needle.data hay.data

/-- `s.replace("'", '"')` — the single-quote repair used by
`try_load_json` and `extract_json_from_text`. -/
def replQuotes (s : String) : String :=
  String.mk (s.data.map fun c => if c = squote then dquote else c)

/-- Python `repr` of a string (quote choice rule of CPython; escapes
are outside the model — no property proved here reaches `repr` of a
string holding a quote or a backslash). -/
def pyReprStr (s : String) : String :=
  if s.data.contains squote && !s.data.contains dquote then
    String.mk (dquote :: s.data ++ [dquote])
  else
    String.mk (squote :: s.data ++ [squote])

mutual

/-- Python `repr(v)`, used by `str()` on lists and dicts. -/
def pyRepr : PyVal → String
  | .none => "None"
  | .bool true => "True"
  | .bool false => "False"
  | .int n => toString n
  | .str s => pyReprStr s
  | .list xs => "[" ++ pyReprList xs ++ "]"
  | .dict es => String.mk [lbrace] ++ pyReprEntries es ++ String.mk [rbrace]

def pyReprList : List PyVal → String
  | [] => ""
  | [x] => pyRepr x
  | x :: y :: t => pyRepr x ++ ", " ++ pyReprList (y :: t)

def pyReprEntries : List (String × PyVal) → String
  | [] => ""
  | [(k, v)] => pyReprStr k ++ ": " ++ pyRepr v
  | (k, v) :: e :: t => pyReprStr k ++ ": " ++ pyRepr v ++ ", " ++ pyReprEntries (e :: t)

end

/-- Python `str(v)`. -/
def pyStr : PyVal → String
  | .str s => s
  | v => pyRepr v

/-! ### A model of `json.loads`

An executable strict JSON parser: whole-string, whitespace-tolerant,
objects / arrays / strings / integer numerals / `true` / `false` /
`null`.  Fractional or exponent numerals (JSON floats) and the CPython
extensions `NaN` / `Infinity` are outside the model and parse as
failures. -/

def jsonWs (c : Char) : Bool :=
  c = ' ' || c = '\t' || c = '\n' || c = '\r'

def hexVal (c : Char) : Option Nat :=
  if '0' ≤ c && c ≤ '9' then Option.some (c.toNat - 48)
  else if 'a' ≤ c && c ≤ 'f' then Option.some (c.toNat - 87)
  else if 'A' ≤ c && c ≤ 'F' then Option.some (c.toNat - 70)
  else Option.none

/-- Parse the body of a JSON string after the opening quote; returns the
decoded characters and the remainder after the closing quote. -/
def jsonStrAux : List Char → Option (List Char × List Char)
  | [] => Option.none
  | c :: r =>
    if c = dquote then Option.some ([], r)
    else if c = '\\' then
      match r with
      | [] => Option.none
      | e :: r2 =>
        if e = dquote then (jsonStrAux r2).map fun (cs, rest) => (dquote :: cs, rest)
        else if e = '\\' then (jsonStrAux r2).map fun (cs, rest) => ('\\' :: cs, rest)
        else if e = '/' then (jsonStrAux r2).map fun (cs, rest) => ('/' :: cs, rest)
        else if e = 'b' then (jsonStrAux r2).map fun (cs, rest) => (Char.ofNat 8 :: cs, rest)
        else if e = 'f' then (jsonStrAux r2).map fun (cs, rest) => (Char.ofNat 12 :: cs, rest)
        else if e = 'n' then (jsonStrAux r2).map fun (cs, rest) => ('\n' :: cs, rest)
        else if e = 'r' then (jsonStrAux r2).map fun (cs, rest) => ('\r' :: cs, rest)
        else if e = 't' then (jsonStrAux r2).map fun (cs, rest) => ('\t' :: cs, rest)
        else if e = 'u' then
          match r2 with
          | h1 :: h2 :: h3 :: h4 :: r3 =>
            match hexVal h1, hexVal h2, hexVal h3, hexVal h4 with
            | Option.some a, Option.some b, Option.some c', Option.some d =>
                (jsonStrAux r3).map fun (cs, rest) =>
                  (Char.ofNat (a * 4096 + b * 256 + c' * 16 + d) :: cs, rest)
            | _, _, _, _ => Option.none
          | _ => Option.none
        else Option.none
    else if c.toNat < 32 then Option.none
    else (jsonStrAux r).map fun (cs, rest) => (c :: cs, rest)

/-- Parse a JSON integer numeral (leading-zero rule of the JSON grammar;
a following `.`, `e` or `E` means a float, which the model rejects). -/
def jsonNum (l : List Char) : Option (PyVal × List Char) :=
  let (neg, l1) := match l with
    | '-' :: r => (true, r)
    | _ => (false, l)
  match l1 with
  | [] => Option.none
  | c :: _ =>
    if !isDig c then Option.none
    else if c = '0' && (l1.drop 1).head?.any isDig then Option.none
    else
      let digs := l1.takeWhile isDig
      let rest := l1.dropWhile isDig
      match rest with
      | '.' :: _ => Option.none
      | 'e' :: _ => Option.none
      | 'E' :: _ => Option.none
      | _ =>
        let n : Nat := digs.foldl (fun acc d => acc * 10 + (d.toNat - 48)) 0
        Option.some (.int (if neg then -(n : Int) else (n : Int)), rest)

mutual

def jsonVal : Nat → List Char → Option (PyVal × List Char)
  | 0, _ => Option.none
  | fuel + 1, l =>
    let l := l.dropWhile jsonWs
    match l with
    | 'n' :: 'u' :: 'l' :: 'l' :: r => Option.some (.none, r)
    | 't' :: 'r' :: 'u' :: 'e' :: r => Option.some (.bool true, r)
    | 'f' :: 'a' :: 'l' :: 's' :: 'e' :: r => Option.some (.bool false, r)
    | c :: r =>
      if c = dquote then
        (jsonStrAux r).map fun (cs, rest) => (.str (String.mk cs), rest)
      else if c = lbrace then
        match (r.dropWhile jsonWs) with
        | c2 :: r2 =>
          if c2 = rbrace then Option.some (.dict [], r2)
          else
            (jsonObjItems fuel (c2 :: r2) []).map fun (es, rest) => (.dict es, rest)
        | [] => Option.none
      else if c = '[' then
        match (r.dropWhile jsonWs) with
        | ']' :: r2 => Option.some (.list [], r2)
        | r2 => (jsonArrItems fuel r2).map fun (xs, rest) => (.list xs, rest)
      else jsonNum l
    | [] => Option.none

def jsonArrItems : Nat → List Char → Option (List PyVal × List Char)
  | 0, _ => Option.none
  | fuel + 1, l => do
    let (v, r) ← jsonVal fuel l
    match r.dropWhile jsonWs with
    | ',' :: r2 =>
      let (xs, rest) ← jsonArrItems fuel r2
      Option.some (v :: xs, rest)
    | ']' :: r2 => Option.some ([v], r2)
    | _ => Option.none

def jsonObjItems : Nat → List Char → PyDict → Option (PyDict × List Char)
  | 0, _, _ => Option.none
  | fuel + 1, l, acc =>
    match l.dropWhile jsonWs with
    | c :: r =>
      if c = dquote then do
        let (cs, r2) ← jsonStrAux r
        match r2.dropWhile jsonWs with
        | ':' :: r3 => do
          let (v, r4) ← jsonVal fuel r3
          let acc := dictInsert acc (String.mk cs) v
          match r4.dropWhile jsonWs with
          | ',' :: r5 => jsonObjItems fuel r5 acc
          | c2 :: r5 =>
            if c2 = rbrace then Option.some (acc, r5) else Option.none
          | [] => Option.none
        | _ => Option.none
      else Option.none
    | [] => Option.none

end

/-- `json.loads(s)` (model); `Option.none` is a `JSONDecodeError`. -/
def jsonParse (s : String) : Option PyVal :=
  match jsonVal (2 * s.length + 8) s.data with
  | Option.some (v, rest) =>
      if (rest.dropWhile jsonWs).isEmpty then Option.some v else Option.none
  | Option.none => Option.none

/-- `try_load_json` (app.py lines 27-46). -/
def tryLoadJson : PyVal → PyVal
  | .none => .none
  | .dict es => .dict es
  | .list xs => .list xs
  | .str x =>
      let s := pyStrip x
      if s = "" then .str s
      else
        match jsonParse s with
        | Option.some v => v
        | Option.none =>
          match jsonParse (replQuotes s) with
          | Option.some v => v
          | Option.none => .str s
  | v => v

/-! ### A model of `datetime.date`

Dates are proleptic-Gregorian ordinals (`date.toordinal`), following
CPython's pure-Python `_ymd2ord` / `_ord2ymd`.  The valid range is
`1 .. maxOrdinal` (`date.min = 0001-01-01` to `date.max = 9999-12-31`);
stepping outside it models `OverflowError`. -/

def isLeap (y : Nat) : Bool :=
  y % 4 = 0 && (y % 100 != 0 || y % 400 = 0)

def daysBeforeMonth (m : Nat) : Nat :=
  [0, 0, 31, 59, 90, 120, 151, 181, 212, 243, 273, 304, 334].getD m 0

def daysInMonthTable (m : Nat) : Nat :=
  [0, 31, 28, 31, 30, 31, 30, 31, 31, 30, 31, 30, 31].getD m 0

def daysInMonth (y m : Nat) : Nat :=
  if m = 2 && isLeap y then 29 else daysInMonthTable m

/-- `_ymd2ord(y, m, d)`. -/
def ymd2ord (y m d : Nat) : Nat :=
  let py := y - 1
  py * 365 + py / 4 - py / 100 + py / 400 +
    daysBeforeMonth m + (if 2 < m && isLeap y then 1 else 0) + d

/-- `date.max.toordinal()`. -/
def maxOrdinal : Nat := 3652059

/-- The month/day estimate-and-correct step of `_ord2ymd`, on the
day-of-year remainder `r4` and the leap flag. -/
def monthDayOf (r4 : Nat) (leap : Bool) : Nat × Nat :=
  let month := (r4 + 50) / 32
  let preceding := daysBeforeMonth month + (if 2 < month && leap then 1 else 0)
  if r4 < preceding then
    let month' := month - 1
    let preceding' :=
      preceding - (daysInMonthTable month' + (if month' = 2 && leap then 1 else 0))
    (month', r4 - preceding' + 1)
  else (month, r4 - preceding + 1)

/-- `_ord2ymd(n)`: the divmod chain of CPython's datetime module. -/
def ord2ymd (n : Nat) : Nat × Nat × Nat :=
  let n0 := n - 1
  let n400 := n0 / 146097
  let r1 := n0 % 146097
  let n100 := r1 / 36524
  let r2 := r1 % 36524
  let n4 := r2 / 1461
  let r3 := r2 % 1461
  let n1 := r3 / 365
  let r4 := r3 % 365
  let year := n400 * 400 + 1 + n100 * 100 + n4 * 4 + n1
  if n1 = 4 || n100 = 4 then (year - 1, 12, 31)
  else
    let leap := n1 = 3 && (n4 != 24 || n100 = 3)
    let md := monthDayOf r4 leap
    (year, md.1, md.2)

def digitChar (d : Nat) : Char := Char.ofNat (48 + d)

def pad2 (n : Nat) : List Char :=
  [digitChar (n / 10 % 10), digitChar (n % 10)]

def pad4 (n : Nat) : List Char :=
  [digitChar (n / 1000 % 10), digitChar (n / 100 % 10),
   digitChar (n / 10 % 10), digitChar (n % 10)]

/-- `date.fromordinal(n).isoformat()` for an in-range ordinal. -/
def isoOfOrd (n : Nat) : String :=
  match ord2ymd n with
  | (y, m, d) => String.mk (pad4 y ++ '-' :: pad2 m ++ '-' :: pad2 d)

/-- `(date.fromordinal(n) + timedelta(days=i))`, `Option.none` modelling
`OverflowError` on an out-of-range result. -/
def addDays (n : Nat) (i : Nat) : Option Nat :=
  if 1 ≤ n + i && n + i ≤ maxOrdinal then Option.some (n + i) else Option.none

/-- `(date.fromordinal(n) - timedelta(days=i))`. -/
def subDays (n : Nat) (i : Nat) : Option Nat :=
  if i < n && n - i ≤ maxOrdinal then Option.some (n - i) else Option.none

/-- `date.fromisoformat(s)` (strict `YYYY-MM-DD` form), returning the
ordinal; `Option.none` models `ValueError`. -/
def fromIsoOrd (s : String) : Option Nat :=
  match s.data with
  | [a, b, c, d, s1, e, f, s2, g, h] =>
    if s1 = '-' && s2 = '-' && [a, b, c, d, e, f, g, h].all isDig then
      let y := (a.toNat - 48) * 1000 + (b.toNat - 48) * 100 + (c.toNat - 48) * 10 + (d.toNat - 48)
      let m := (e.toNat - 48) * 10 + (f.toNat - 48)
      let dy := (g.toNat - 48) * 10 + (h.toNat - 48)
      if 1 ≤ y && 1 ≤ m && m ≤ 12 && 1 ≤ dy && dy ≤ daysInMonth y m then
        Option.some (ymd2ord y m dy)
      else Option.none
    else Option.none
  | _ => Option.none

/-- The anchored date pattern of `keys_are_dates`
(`re.match` of `^\d{4}-\d{2}-\d{2}$`; `$` also matches just before one
trailing newline). -/
def dateShape : List Char → Bool
  | [a, b, c, d, s1, e, f, s2, g, h] =>
      isDig a && isDig b && isDig c && isDig d && s1 = '-' &&
        isDig e && isDig f && s2 = '-' && isDig g && isDig h
  | _ => false

/-- Exact match of `^\d{4}-\d{2}-\d{2}$` with no trailing newline
allowance — the literal reading of the spec's date-key pattern. -/
def strictDateMatch (s : String) : Bool :=
  dateShape s.data

/-- Python's `re.match(r"^\d{4}-\d{2}-\d{2}$", s)` as a boolean. -/
def pyDateMatch (s : String) : Bool :=
  dateShape s.data ||
    (match s.data.reverse with
     | '\n' :: t => dateShape t.reverse
     | _ => false)

/-! ### Text-pattern extractors (the regex scans of app.py) -/

def sepChar (c : Char) : Bool :=
  c = ':' || c = '-' || c = '–' || c = '—'

def bulletChar (c : Char) : Bool :=
  c = '-' || c = '*' || c = '+'

/-- Match `\d{4}-\d{2}-\d{2}` at the head of the list. -/
def tryDateAt : List Char → Option (String × List Char)
  | a :: b :: c :: d :: s1 :: e :: f :: s2 :: g :: h :: rest =>
    if isDig a && isDig b && isDig c && isDig d && s1 = '-' &&
        isDig e && isDig f && s2 = '-' && isDig g && isDig h then
      Option.some (String.mk [a, b, c, d, '-', e, f, '-', g, h], rest)
    else Option.none
  | _ => Option.none

/-- Match `\s*(.+)` (greedy `.` stopping at a newline). -/
def grabTopics (rest : List Char) : Option (String × List Char) :=
  let p := rest.dropWhile isPySpace
  if p.isEmpty then Option.none
  else
    let t := p.takeWhile (fun c => c ≠ '\n')
    Option.some (String.mk t, p.drop t.length)

/-- One attempt of `(?P<date>\d{4}-\d{2}-\d{2})\s*[:\-–—]\s*(?P<topics>.+)`. -/
def tryDateLineAt (l : List Char) : Option (String × String × List Char) := do
  let (d, r) ← tryDateAt l
  match r.dropWhile isPySpace with
  | c :: r3 =>
    if sepChar c then (grabTopics r3).map fun (t, rest) => (d, t, rest)
    else Option.none
  | [] => Option.none

/-- `date_line_re.finditer` (app.py lines 85-87). -/
def dateLineScanAux : Nat → List Char → List (String × String)
  | 0, _ => []
  | fuel + 1, l =>
    match l with
    | [] => []
    | _ :: tl =>
      match tryDateLineAt l with
      | Option.some (d, t, rest) => (d, t) :: dateLineScanAux fuel rest
      | Option.none => dateLineScanAux fuel tl

/-- One attempt of the bullet pattern after its leading `[\-\*\+]`:
`\s*(?P<date>\d{4}-\d{2}-\d{2})\s*[:\-–—]?\s*(?P<topics>.+)$`. -/
def tryBulletAt (tl : List Char) : Option (String × String × List Char) := do
  let r1 := tl.dropWhile isPySpace
  let (d, r2) ← tryDateAt r1
  let a := r2.dropWhile isPySpace
  match a with
  | c :: r3 =>
    if sepChar c then
      let b := r3.dropWhile isPySpace
      match b with
      | _ :: _ =>
        let t := b.takeWhile (fun ch => ch ≠ '\n')
        Option.some (d, String.mk t, b.drop t.length)
      | [] =>
        let t := a.takeWhile (fun ch => ch ≠ '\n')
        Option.some (d, String.mk t, a.drop t.length)
    else
      let t := a.takeWhile (fun ch => ch ≠ '\n')
      Option.some (d, String.mk t, a.drop t.length)
  | [] => Option.none

/-- `bullet_re.finditer` (MULTILINE; app.py lines 90-92). -/
def bulletScanAux : Nat → Bool → List Char → List (String × String)
  | 0, _, _ => []
  | fuel + 1, atStart, l =>
    match l with
    | [] => []
    | c :: tl =>
      if atStart && bulletChar c then
        match tryBulletAt tl with
        | Option.some (d, t, rest) => (d, t) :: bulletScanAux fuel false rest
        | Option.none => bulletScanAux fuel (c = '\n') tl
      else bulletScanAux fuel (c = '\n') tl

/-- One attempt of the table pattern after its leading `\|`:
`\s*(?P<date>\d{4}-\d{2}-\d{2})\s*\|\s*(?P<topics>[^|\n]+)\|`. -/
def tryTableAt (tl : List Char) : Option (String × String × List Char) := do
  let r1 := tl.dropWhile isPySpace
  let (d, r2) ← tryDateAt r1
  match r2.dropWhile isPySpace with
  | c :: r4 =>
    if c = '|' then
      let ws := r4.takeWhile isPySpace
      let r4' := r4.dropWhile isPySpace
      let seg := r4'.takeWhile (fun ch => ch ≠ '|' && ch ≠ '\n')
      match r4'.drop seg.length with
      | '|' :: r5 =>
        if seg.isEmpty then
          if ws.isEmpty || ws.getLast? = Option.some '\n' then Option.none
          else Option.some (d, "", r5)
        else Option.some (d, String.mk seg, r5)
      | _ => Option.none
    else Option.none
  | [] => Option.none

/-- `table_row_re.finditer` (app.py lines 95-97). -/
def tableScanAux : Nat → List Char → List (String × String)
  | 0, _ => []
  | fuel + 1, l =>
    match l with
    | [] => []
    | c :: tl =>
      if c = '|' then
        match tryTableAt tl with
        | Option.some (d, t, rest) => (d, t) :: tableScanAux fuel rest
        | Option.none => tableScanAux fuel tl
      else tableScanAux fuel tl

/-- Index of the last closing brace in a character list. -/
def lastRBraceIdx (l : List Char) : Option Nat :=
  match l.reverse.findIdx? (fun c => c = rbrace) with
  | Option.some k => Option.some (l.length - 1 - k)
  | Option.none => Option.none

/-- `re.findall(r"(\{[\s\S]{0,6000}\})", text)` — greedy brace blobs,
scanned left to right, non-overlapping. -/
def jsonBlobCandidatesAux : Nat → List Char → List String
  | 0, _ => []
  | fuel + 1, l =>
    match l with
    | [] => []
    | c :: tl =>
      if c = lbrace then
        let w := tl.take 6001
        match lastRBraceIdx w with
        | Option.some k =>
            String.mk (lbrace :: w.take (k + 1)) ::
              jsonBlobCandidatesAux fuel (tl.drop (k + 1))
        | Option.none => jsonBlobCandidatesAux fuel tl
      else jsonBlobCandidatesAux fuel tl

/-- `re.match(r"\s*(\d{4}-\d{2}-\d{2})\s*[:\-–—]\s*(.+)", e)` used by
`list_to_date_dict` on string entries. -/
def reMatchDatePrefix (s : String) : Option (String × String) := do
  let (d, r) ← tryDateAt (s.data.dropWhile isPySpace)
  match r.dropWhile isPySpace with
  | c :: r3 =>
    if sepChar c then (grabTopics r3).map fun (t, _) => (d, t)
    else Option.none
  | [] => Option.none

/-- `list_to_date_dict` (app.py lines 48-63). -/
def listToDateDict (xs : List PyVal) : PyDict :=
  xs.foldl
    (fun out e =>
      match e with
      | .dict es =>
          let dk := pyOrV (dmget es "date") (dmget es "day")
          let tps := pyOrV (dmget es "topics") (pyOrV (dmget es "topic") (dmget es "items"))
          if pyTruthy dk then dictInsert out (pyStr dk) tps else out
      | .str s =>
          match reMatchDatePrefix s with
          | Option.some (d, t) => dictInsert out d (.str (pyStrip t))
          | Option.none => out
      | _ => out)
    []

/-- The JSON-blob loop of `parse_schedule_from_text` (lines 71-82). -/
def findScheduleInBlobs : List String → Option PyDict
  | [] => Option.none
  | jm :: rest =>
    match jsonParse jm with
    | Option.some (.dict es) =>
      if (dictGet es "schedule").isSome then
        match pyOrV (dmget es "schedule") (.dict []) with
        | .dict ses => Option.some ses
        | .list xs => Option.some (listToDateDict xs)
        | _ => findScheduleInBlobs rest
      else findScheduleInBlobs rest
    | _ => findScheduleInBlobs rest

/-- `parse_schedule_from_text` (app.py lines 65-99). -/
def parseSchedText (text : String) : PyDict :=
  if text = "" then []
  else
    match findScheduleInBlobs (jsonBlobCandidatesAux text.data.length text.data) with
    | Option.some d => d
    | Option.none =>
      let p1 := dateLineScanAux text.data.length text.data
      let p2 := bulletScanAux text.data.length true text.data
      let p3 := tableScanAux text.data.length text.data
      (p1 ++ p2 ++ p3).foldl
        (fun out (k, t) => dictInsert out (pyStrip k) (.str (pyStrip t))) []

/-- `parse_schedule_from_text` applied to the raw value of the producer
result: a falsy argument yields the neutral empty dict, a truthy
non-string raises `TypeError` inside `re.findall`. -/
def parseScheduleFromTextV (v : PyVal) : Except String PyDict :=
  if !pyTruthy v then .ok []
  else
    match v with
    | .str s => .ok (parseSchedText s)
    | _ => .error "TypeError"

/-- Consume a word case-insensitively (the word given in lowercase). -/
def ciWordAt : List Char → List Char → Option (List Char)
  | [], l => Option.some l
  | _ :: _, [] => Option.none
  | c :: wr, x :: lr => if x.toLower = c then ciWordAt wr lr else Option.none

/-- Completion of the fenced pattern after a closing-brace candidate:
`\s*` then three backticks. -/
def fencedCloseOK (l : List Char) : Bool :=
  match l.dropWhile isPySpace with
  | a :: b :: c :: _ => a = btick && b = btick && c = btick
  | _ => false

/-- Greedy choice of the closing brace for the fenced group
`(\{[\s\S]+\})`: the last index `k ≥ 1` whose brace is followed by
`\s*` and a closing fence. -/
def findLastFencedClose (l : List Char) : Option Nat :=
  ((List.range l.length).filter fun k =>
      1 ≤ k && l.getD k ' ' = rbrace && fencedCloseOK (l.drop (k + 1))).getLast?

/-- `re.search(r"```json\s*(\{[\s\S]+\})\s*```", text, re.IGNORECASE)`,
returning the captured group. -/
def fencedSearchAux : Nat → List Char → Option String
  | 0, _ => Option.none
  | fuel + 1, l =>
    match l with
    | [] => Option.none
    | c :: tl =>
      (if c = btick then
        match tl with
        | b2 :: b3 :: r =>
          if b2 = btick && b3 = btick then
            match ciWordAt "json".data r with
            | Option.some r2 =>
              match r2.dropWhile isPySpace with
              | c2 :: r4 =>
                if c2 = lbrace then
                  match findLastFencedClose r4 with
                  | Option.some k => Option.some (String.mk (lbrace :: r4.take (k + 1)))
                  | Option.none => Option.none
                else Option.none
              | [] => Option.none
            | Option.none => Option.none
          else Option.none
        | _ => Option.none
      else Option.none).orElse fun _ => fencedSearchAux fuel tl

/-- `re.search(r"(\{[\s\S]{50,10000}\})", text)`. -/
def bareSearchAux : Nat → List Char → Option String
  | 0, _ => Option.none
  | fuel + 1, l =>
    match l with
    | [] => Option.none
    | c :: tl =>
      if c = lbrace then
        let w := tl.take 10001
        match lastRBraceIdx w with
        | Option.some k =>
          if 50 ≤ k then Option.some (String.mk (lbrace :: w.take (k + 1)))
          else bareSearchAux fuel tl
        | Option.none => bareSearchAux fuel tl
      else bareSearchAux fuel tl

/-- `extract_json_from_text` (app.py lines 101-117). -/
def extractJsonFromTextS (text : String) : Option PyVal :=
  let js? :=
    match fencedSearchAux text.data.length text.data with
    | Option.some g => Option.some g
    | Option.none => bareSearchAux text.data.length text.data
  match js? with
  | Option.none => Option.none
  | Option.some js =>
    match jsonParse js with
    | Option.some v => Option.some v
    | Option.none => jsonParse (replQuotes js)

/-- `extract_json_from_text` applied to the raw value: falsy values
short-circuit to `None`; a truthy non-string raises inside
`re.search`. -/
def extractJsonFromTextV (v : PyVal) : Except String (Option PyVal) :=
  if !pyTruthy v then .ok Option.none
  else
    match v with
    | .str s => .ok (extractJsonFromTextS s)
    | _ => .error "TypeError"

/-- The terminator `(?:\n\s*\n\s*(quizzes|schedule|$))` of the notes
pattern, tested at a position. -/
def notesTermAt (l : List Char) : Bool :=
  match l with
  | '\n' :: r =>
    (r.takeWhile isPySpace).contains '\n' &&
      (let r2 := r.dropWhile isPySpace
       (ciWordAt "quizzes".data r2).isSome || (ciWordAt "schedule".data r2).isSome ||
         r2.isEmpty)
  | _ => false

/-- Lazy end position of the captured notes block: the least `e ≥ 1`
whose suffix starts the terminator. -/
def findNotesEnd (l : List Char) : Option Nat :=
  (List.range (l.length + 1)).find? fun e => 1 ≤ e && notesTermAt (l.drop e)

/-- Leftmost occurrence of the notes pattern; returns the captured
block. -/
def salvageScan : Nat → List Char → Option (List Char)
  | 0, _ => Option.none
  | fuel + 1, l =>
    match l with
    | [] => Option.none
    | _ :: tl =>
      (match ciWordAt "notes".data l with
       | Option.some r =>
         let r3 := ((r.dropWhile isPySpace).dropWhile fun c => c = ':' || c = '-').dropWhile isPySpace
         match findNotesEnd r3 with
         | Option.some e => Option.some (r3.take e)
         | Option.none => Option.none
       | Option.none => Option.none).orElse fun _ => salvageScan fuel tl

/-- The lookahead `(?=[A-Za-z0-9 \-]{2,}:\s)` of the notes splitter. -/
def labelLookahead (l : List Char) : Bool :=
  let run := l.takeWhile fun c => (c.isAlpha && c.toNat < 128) || isDig c || c = ' ' || c = '-'
  2 ≤ run.length &&
    (match l.drop run.length with
     | ':' :: w :: _ => isPySpace w
     | _ => false)

/-- `re.split(r"\n{2,}|\n(?=[A-Za-z0-9 \-]{2,}:\s)", notes_text)`. -/
def salvSplitAux : Nat → List Char → List Char → List (List Char)
  | 0, acc, _ => [acc.reverse]
  | fuel + 1, acc, l =>
    match l with
    | [] => [acc.reverse]
    | '\n' :: tl =>
      let nlrun := tl.takeWhile fun c => c = '\n'
      if 1 ≤ nlrun.length then
        acc.reverse :: salvSplitAux fuel [] (tl.drop nlrun.length)
      else if labelLookahead tl then
        acc.reverse :: salvSplitAux fuel [] tl
      else salvSplitAux fuel ('\n' :: acc) tl
    | c :: tl => salvSplitAux fuel (c :: acc) tl

/-- `salvage_notes_from_raw` (app.py lines 119-134). -/
def salvageNotesFromRaw (raw : String) : PyVal :=
  if raw = "" then .dict []
  else
    match salvageScan raw.data.length raw.data with
    | Option.none => .dict []
    | Option.some cap =>
      let notesText := pyStripL cap
      let parts := salvSplitAux (notesText.length + 1) [] notesText
      let perTopic := parts.foldl
        (fun acc p =>
          if p.contains ':' then
            let tname := p.takeWhile fun c => c ≠ ':'
            let body := (p.dropWhile fun c => c ≠ ':').drop 1
            dictInsert acc (String.mk (pyStripL tname)) (.str (String.mk (pyStripL body)))
          else acc)
        ([] : PyDict)
      if perTopic.isEmpty then .str (String.mk notesText) else .dict perTopic

/-- Split a character list on newlines (Python MULTILINE line
structure). -/
def splitLinesL : List Char → List (List Char)
  | [] => [[]]
  | c :: tl =>
    if c = '\n' then [] :: splitLinesL tl
    else
      match splitLinesL tl with
      | ln :: rest => (c :: ln) :: rest
      | [] => [[c]]

/-- Per-line match of `^\s*Q[:\.\)]\s*(.+)$` (resp. `A`), returning the
stripped capture. -/
def qaLineMatch (tag : Char) (line : List Char) : Option String :=
  match line.dropWhile isPySpace with
  | c :: d :: rest =>
    if c = tag && (d = ':' || d = '.' || d = ')') then
      let b := rest.dropWhile isPySpace
      if b.isEmpty then Option.none else Option.some (pyStrip (String.mk b))
    else Option.none
  | _ => Option.none

/-- `naive_parse_quizzes_from_text` (app.py lines 136-150). -/
def naiveParseQuizzesFromText (text : String) : PyVal :=
  if text = "" then .dict []
  else
    let lines := splitLinesL text.data
    let qs := lines.filterMap (qaLineMatch 'Q')
    let as' := lines.filterMap (qaLineMatch 'A')
    if qs.isEmpty then .dict []
    else
      let qlist := (List.range qs.length).map fun i =>
        PyVal.dict [("question", .str (qs.getD i "")), ("options", .list []),
                    ("answer_index", .none), ("answer_text", .str (as'.getD i ""))]
      .dict [("auto_parsed", .list qlist)]

/-- Per-line match of `^[\-\*•]\s+(.+)$`. -/
def lineBullet (line : List Char) : Option String :=
  match line with
  | c :: rest =>
    if c = '-' || c = '*' || c = Char.ofNat 8226 then
      let b := rest.dropWhile isPySpace
      if (rest.takeWhile isPySpace).isEmpty || b.isEmpty then Option.none
      else Option.some (String.mk b)
    else Option.none
  | [] => Option.none

/-- Per-line match of `^\s*\d+\.\s+(.+)$`. -/
def lineNumbered (line : List Char) : Option String :=
  let r := line.dropWhile isPySpace
  if (r.takeWhile isDig).isEmpty then Option.none
  else
    match r.dropWhile isDig with
    | '.' :: r3 =>
      let b := r3.dropWhile isPySpace
      if (r3.takeWhile isPySpace).isEmpty || b.isEmpty then Option.none
      else Option.some (String.mk b)
    | _ => Option.none

/-- Per-line match of `^\s{0,3}#{1,6}\s+(.+)$`. -/
def lineHeading (line : List Char) : Option String :=
  let ws := line.takeWhile isPySpace
  if 3 < ws.length then Option.none
  else
    let r := line.drop ws.length
    let hs := r.takeWhile fun c => c = '#'
    if hs.isEmpty || 6 < hs.length then Option.none
    else
      let r2 := r.drop hs.length
      let b := r2.dropWhile isPySpace
      if (r2.takeWhile isPySpace).isEmpty || b.isEmpty then Option.none
      else Option.some (String.mk b)

/-- `str.split()` — split on whitespace runs, dropping empties. -/
def pySplitWsAux : Nat → List Char → List (List Char)
  | 0, _ => []
  | fuel + 1, l =>
    match l.dropWhile isPySpace with
    | [] => []
    | c :: tl =>
      (c :: tl.takeWhile fun ch => !isPySpace ch) ::
        pySplitWsAux fuel (tl.dropWhile fun ch => !isPySpace ch)

def pySplitWs (l : List Char) : List (List Char) :=
  pySplitWsAux l.length l

/-- Case-insensitive, order-preserving dedup of
`extract_topics_from_syllabus_text` (app.py lines 172-180). -/
def dedupCIAux : List String → List String → List String
  | _, [] => []
  | seen, t :: rest =>
    let tl := lowerS t
    if t ≠ "" && !seen.contains tl then t :: dedupCIAux (tl :: seen) rest
    else dedupCIAux seen rest

def dedupCI (ts : List String) : List String := dedupCIAux [] ts

/-- `list(dict.fromkeys(xs))` for strings. -/
def dedupKeysAux : List String → List String → List String
  | _, [] => []
  | seen, t :: rest =>
    if seen.contains t then dedupKeysAux seen rest
    else t :: dedupKeysAux (t :: seen) rest

def dedupKeys (ts : List String) : List String := dedupKeysAux [] ts

/-- `extract_topics_from_syllabus_text` (app.py lines 152-180). -/
def extractTopicsFromSyllabusText (text : String) : List String :=
  if text = "" then []
  else
    let lines := splitLinesL text.data
    let t1 := (lines.filterMap lineBullet).map pyStrip
    let t2 := (lines.filterMap lineNumbered).map pyStrip
    let t3 := (lines.filterMap lineHeading).map pyStrip
    let base := t1 ++ t2 ++ t3
    let cands :=
      if base.isEmpty then
        lines.filterMap fun ln =>
          let st := pyStripL ln
          let wc := (pySplitWs st).length
          if 3 ≤ wc && wc ≤ 10 && st.getLast? ≠ Option.some '.' then
            Option.some (String.mk st)
          else Option.none
      else base
    dedupCI cands

/-! ### The normalization pipeline of `plan` (app.py lines 229-464)

The stages below are the successive statements of the normalization
section, in source order.  `today` is `date.today()` as an ordinal,
`syl` the original syllabus text, `exam`/`days` the optional target
date and day count of the request. -/

/-- `raw = result.get("full_markdown") or result.get("raw") or ""`. -/
def rawOf (result : PyDict) : PyVal :=
  pyOrV (dmget result "full_markdown") (pyOrV (dmget result "raw") (.str ""))

/-- Lines 236-240: fields of an embedded JSON object override the
producer fields when not `None`/`[]`/`{}`/`""`. -/
def applyBlobOverride (result : PyDict) (blob : Option PyVal) : PyDict :=
  match blob with
  | Option.some (PyVal.dict bes) =>
    if pyTruthy (.dict bes) then
      ["topics", "schedule", "notes", "quizzes"].foldl
        (fun res key =>
          let v := dmget bes key
          if !pyIsNeutral v then dictInsert res key v else res)
        result
    else result
  | _ => result

/-- Line 245: the notes field, strictly JSON-decoded when it is a
string (a malformed string raises `JSONDecodeError`). -/
def notesInit (result : PyDict) : Except String PyVal :=
  match dictGet result "notes" with
  | Option.some (.str s) =>
    match jsonParse s with
    | Option.some v => .ok v
    | Option.none => .error "JSONDecodeError"
  | Option.some v => .ok v
  | Option.none => .ok (.dict [])

/-- Lines 249-250: a schedule list becomes a date-keyed dict. -/
def scheduleListFix : PyVal → PyVal
  | .list xs => .dict (listToDateDict xs)
  | v => v

/-- Lines 253-255: JSON-string values of the schedule are decoded. -/
def scheduleDecodeValues : PyVal → PyVal
  | .dict es => .dict (es.map fun e => (e.1, tryLoadJson e.2))
  | v => v

/-- `keys_are_dates` (lines 258-262). -/
def keysAreDates : PyVal → Bool
  | .dict es => !es.isEmpty && es.all fun e => pyDateMatch e.1
  | _ => false

/-- `[all str]` test of line 292. -/
def isStrList : PyVal → Bool
  | .list xs => xs.all fun x => match x with | .str _ => true | _ => false
  | _ => false

/-- `schedule.get(tname)` where `schedule` may not be a dict and
`tname` may not be a string (line 291). -/
def pyDictGetKeyV (schedule : PyVal) (k : PyVal) : Except String PyVal :=
  match schedule with
  | .dict es =>
    match k with
    | .str s => .ok (dmget es s)
    | .list _ => .error "TypeError"
    | .dict _ => .error "TypeError"
    | _ => .ok .none
  | _ => .error "AttributeError"

/-- Lines 287-295: sequential dates starting today, one per topic
key. -/
def buildSeqScheduleAux (schedule : PyVal) (today : Nat) :
    Nat → List PyVal → PyDict → Except String PyDict
  | _, [], acc => .ok acc
  | i, tname :: rest, acc =>
    match addDays today i with
    | Option.none => .error "OverflowError"
    | Option.some d => do
      let v ← pyDictGetKeyV schedule tname
      let entry := if isStrList v then v else .list [tname]
      buildSeqScheduleAux schedule today (i + 1) rest (dictInsert acc (isoOfOrd d) entry)

/-- `[s.strip() for s in re.split(r",\s*|\n", v) if s.strip()]`. -/
def splitCommaNLAux : Nat → List Char → List Char → List (List Char)
  | 0, acc, _ => [acc.reverse]
  | fuel + 1, acc, l =>
    match l with
    | [] => [acc.reverse]
    | ',' :: tl => acc.reverse :: splitCommaNLAux fuel [] (tl.dropWhile isPySpace)
    | '\n' :: tl => acc.reverse :: splitCommaNLAux fuel [] tl
    | c :: tl => splitCommaNLAux fuel (c :: acc) tl

def splitTopics (s : String) : List String :=
  ((splitCommaNLAux (s.data.length + 1) [] s.data).map fun p =>
      String.mk (pyStripL p)).filter fun t => t ≠ ""

/-- Lines 271-284: topic keys for the sequential-date fallback. -/
def computeTopicKeys (schedule quizzes topics : PyVal) : List PyVal :=
  let tk : List PyVal :=
    match schedule with
    | .dict es => if !es.isEmpty then es.map fun e => .str e.1 else []
    | .list xs => xs.filter fun it => match it with | .str _ => true | _ => false
    | .str s =>
        if pyStrip s ≠ "" then (splitTopics s).map PyVal.str else []
    | _ => []
  if !tk.isEmpty then tk
  else
    match quizzes with
    | .dict qes => qes.map fun e => .str e.1
    | _ =>
      if pyTruthy topics then
        match topics with
        | .list ts => ts
        | t => [t]
      else []

/-- Lines 257-296: replace a non-date-keyed schedule. -/
def scheduleKeyFix (schedule raw quizzes topics : PyVal) (today : Nat) :
    Except String PyVal :=
  if keysAreDates schedule then .ok schedule
  else do
    let parsed ← parseScheduleFromTextV raw
    if !parsed.isEmpty then .ok (.dict parsed)
    else
      let tks := computeTopicKeys schedule quizzes topics
      if tks.isEmpty then .ok schedule
      else do
        let d ← buildSeqScheduleAux schedule today 0 tks []
        .ok (.dict d)

/-- `(a.get("question") if isinstance(a, dict) else str(a)) or ""`
followed by `.strip()`; a truthy non-string raises. -/
def questionTextOfA (a : PyVal) : Except String String :=
  let q := match a with
    | .dict d => dmget d "question"
    | v => .str (pyStr v)
  match (if pyTruthy q then q else .str "") with
  | .str s => .ok (pyStrip s)
  | _ => .error "AttributeError"

/-- The pairwise question comparison of lines 320-325. -/
def quizPairsEqual : List PyVal → List PyVal → Except String Bool
  | [], _ => .ok true
  | _, [] => .ok true
  | a :: as', b :: bs => do
    let aq ← questionTextOfA a
    let bq ← questionTextOfA b
    if aq ≠ bq then .ok false else quizPairsEqual as' bs

/-- Lines 315-330: first quizzes key whose list matches exactly;
comparison errors skip the entry (the `except: pass`). -/
def quizExactLoop (xs : List PyVal) : List (String × PyVal) → PyVal
  | [] => .none
  | (tname, qlist) :: rest =>
    match qlist with
    | .list ql =>
      if ql.length = xs.length then
        match quizPairsEqual ql xs with
        | .ok true => .str tname
        | .ok false => quizExactLoop xs rest
        | .error _ => quizExactLoop xs rest
      else quizExactLoop xs rest
    | _ => quizExactLoop xs rest

/-- `" ".join(q.get("question", "") if isinstance(q, dict) else str(q)
for q in val)`; a non-string element raises. -/
def qtextOf (xs : List PyVal) : Except String String :=
  let parts := xs.map fun q =>
    match q with
    | .dict d => dictGetD d "question" (.str "")
    | v => .str (pyStr v)
  if parts.all fun p => match p with | .str _ => true | _ => false then
    .ok (String.intercalate " " (parts.map pyStr))
  else .error "TypeError"

/-- `for t in topics` (line 334): Python iteration over the coerced
topics value. -/
def pyIter : PyVal → Except String (List PyVal)
  | .list ts => .ok ts
  | .str s => .ok (s.data.map fun c => .str (String.mk [c]))
  | .dict es => .ok (es.map fun e => .str e.1)
  | _ => .error "TypeError"

/-- `topics[0]` (line 339). -/
def pyIndex0 : PyVal → Except String PyVal
  | .list ts => match ts with | t :: _ => .ok t | [] => .error "IndexError"
  | .str s =>
    match s.data with
    | c :: _ => .ok (.str (String.mk [c]))
    | [] => .error "IndexError"
  | .dict _ => .error "KeyError"
  | _ => .error "TypeError"

/-- The topic-name test of the substring stage (`t.lower() in qtext`,
lines 334-337). -/
def subPred (q : String) (t : PyVal) : Bool :=
  match t with
  | PyVal.str ss => strContainsSub (lowerS ss) (lowerS q)
  | _ => false

/-- Lines 352-355: stringified scalar field values of a dict item. -/
def fallbackVals (d : PyDict) : Option String :=
  let vals := d.filterMap fun e =>
    match e.2 with
    | .str s => if pyStrip s ≠ "" then Option.some (pyStrip s) else Option.none
    | .int n => Option.some (pyStrip (pyStr (.int n)))
    | .bool b => Option.some (pyStr (.bool b))
    | _ => Option.none
  if vals.isEmpty then Option.none else Option.some (String.intercalate " " vals)

/-- Lines 345-355: one list item converted to a string where
possible. -/
def itemToString (it : PyVal) : Option String :=
  match it with
  | .str s => Option.some (pyStrip s)
  | .dict d =>
    match pyOrV (dmget d "topic") (pyOrV (dmget d "name") (dmget d "title")) with
    | .str s => if pyStrip s ≠ "" then Option.some (pyStrip s) else fallbackVals d
    | _ => fallbackVals d
  | _ => Option.none

/-- The `isinstance(val[0], dict) and "question" in val[0]` test of
line 311. -/
def isQuestionItem (x : PyVal) : Bool :=
  match x with
  | .dict d => (dictGet d "question").isSome
  | _ => false

/-- Lines 301-363: normalize one schedule value into a list of
strings (or the quiz-reattachment one-element list). -/
def normSchedValue (quizzes topics val : PyVal) : Except String PyVal :=
  match val with
  | .str s =>
    let items := splitTopics s
    .ok (.list (if items.isEmpty then [.str (pyStrip s)] else items.map .str))
  | .list xs =>
    match xs with
    | x :: _ =>
      if isQuestionItem x then do
        let m1 : PyVal :=
          match quizzes with
          | .dict qes => quizExactLoop xs qes
          | _ => .none
        let m2 ←
          if !pyTruthy m1 && pyTruthy topics then do
            let q ← qtextOf xs
            let ts ← pyIter topics
            let mSub := (ts.find? (subPred q)).getD PyVal.none
            if pyTruthy mSub then pure mSub else pyIndex0 topics
          else pure m1
        .ok (if pyTruthy m2 then .list [m2] else .list [.str "General"])
      else
        let newItems := xs.filterMap itemToString
        .ok (.list (if newItems.isEmpty then
            [.str (pyStr (.list xs))]
          else newItems.map .str))
    | [] => .ok (.list [.str "General"])
  | v => .ok (.list [.str (pyStr v)])

def normValsAux (quizzes topics : PyVal) : PyDict → Except String PyDict
  | [] => .ok []
  | (k, v) :: rest => do
    let v' ← normSchedValue quizzes topics v
    let rest' ← normValsAux quizzes topics rest
    .ok ((k, v') :: rest')

def scheduleValuesNorm (schedule quizzes topics : PyVal) : Except String PyVal :=
  match schedule with
  | .dict es => do
    let es' ← normValsAux quizzes topics es
    .ok (.dict es')
  | v => .ok v

/-- Lines 365-380: derive topics from schedule values or quiz keys
when the topics value is falsy. -/
def deriveTopics (topics schedule quizzes : PyVal) : PyVal :=
  if pyTruthy topics then topics
  else
    let derived : List String :=
      match schedule with
      | .dict es =>
        es.foldl
          (fun acc e =>
            match e.2 with
            | .str s => acc ++ splitTopics s
            | .list xs =>
              acc ++ xs.filterMap fun it =>
                match it with
                | .str s => Option.some (pyStrip s)
                | _ => Option.none
            | _ => acc)
          []
      | _ => []
    let derived :=
      if derived.isEmpty then
        match quizzes with
        | .dict qes => qes.map fun e => e.1
        | _ => []
      else derived
    .list ((dedupKeys derived).map .str)

/-- `len(topics)` (raises on an unsized value). -/
def pyLen : PyVal → Except String Nat
  | .str s => .ok s.length
  | .list xs => .ok xs.length
  | .dict es => .ok es.length
  | _ => .error "TypeError"

/-- Numeric value of a hashable for `dict.fromkeys` equality
(`True == 1`, `False == 0`). -/
def pyNumVal : PyVal → Option Int
  | .bool b => Option.some (if b then 1 else 0)
  | .int n => Option.some n
  | _ => Option.none

def pyHashEq (a b : PyVal) : Bool :=
  match pyNumVal a, pyNumVal b with
  | Option.some x, Option.some y => x = y
  | _, _ =>
    match a, b with
    | .none, .none => true
    | .str x, .str y => x = y
    | _, _ => false

/-- `list(dict.fromkeys(xs))` over Python values; an unhashable
element raises. -/
def dedupPyAux : List PyVal → List PyVal → Except String (List PyVal)
  | _, [] => .ok []
  | seen, v :: rest =>
    match v with
    | .list _ => .error "TypeError"
    | .dict _ => .error "TypeError"
    | _ =>
      if seen.any fun u => pyHashEq u v then dedupPyAux seen rest
      else do
        let r ← dedupPyAux (v :: seen) rest
        .ok (v :: r)

def dedupPy (xs : List PyVal) : Except String (List PyVal) :=
  dedupPyAux [] xs

/-- Lines 383-386: extend a tiny topics value from the syllabus
text. -/
def syllabusTopicsFix (topics : PyVal) (syl : String) : Except String PyVal := do
  let cond ←
    if !pyTruthy topics then pure true
    else do
      let n ← pyLen topics
      pure (decide (n < 2))
  if cond && syl ≠ "" then
    let extracted := extractTopicsFromSyllabusText syl
    if !extracted.isEmpty then do
      let base : List PyVal ←
        match (if pyTruthy topics then topics else .list []) with
        | .list ts => pure ts
        | _ => Except.error "TypeError"
      let deduped ← dedupPy (base ++ extracted.map PyVal.str)
      pure (.list deduped)
    else pure topics
  else pure topics

/-- Lines 389-392: salvage notes from the raw text when notes are
missing. -/
def notesSalvageStage (notes raw : PyVal) : Except String PyVal :=
  if (!pyTruthy notes || (match notes with | .dict [] => true | _ => false)) &&
      pyTruthy raw then
    match raw with
    | .str s =>
      let salv := salvageNotesFromRaw s
      .ok (if pyTruthy salv then salv else notes)
    | _ => .error "TypeError"
  else .ok notes

/-- Lines 395-396: a quizzes list loses to a quizzes dict found in the
embedded JSON blob. -/
def quizBlobFix (quizzes : PyVal) (blob : Option PyVal) : Except String PyVal :=
  match quizzes with
  | .list _ =>
    match blob with
    | Option.some bv =>
      if pyTruthy bv then
        match bv with
        | .dict bes =>
          match dmget bes "quizzes" with
          | .dict qd => .ok (.dict qd)
          | _ => .ok quizzes
        | _ => .error "AttributeError"
      else .ok quizzes
    | Option.none => .ok quizzes
  | _ => .ok quizzes

/-- Lines 399-402: a non-blank quizzes string goes through the naive
Q/A parser. -/
def quizStrFix (quizzes : PyVal) : PyVal :=
  match quizzes with
  | .str s =>
    if pyStrip s ≠ "" then
      let parsed := naiveParseQuizzesFromText s
      if pyTruthy parsed then parsed else quizzes
    else quizzes
  | _ => quizzes

/-- `topics[start:start+2]` (list or string slicing; anything else
raises). -/
def pySlice2 (topics : PyVal) (a : Nat) : Except String PyVal :=
  match topics with
  | .list ts => .ok (.list ((ts.drop a).take 2))
  | .str s => .ok (.str (String.mk ((s.data.drop a).take 2)))
  | _ => .error "TypeError"

/-- The schedule-filling loop of lines 421-424 / 427-430 / 432-436. -/
def autoFillAux (topics : PyVal) (anchor : Nat) :
    Nat → Nat → PyDict → Except String PyDict
  | _, 0, acc => .ok acc
  | i, rem + 1, acc =>
    match addDays anchor i with
    | Option.none => .error "OverflowError"
    | Option.some d => do
      let slice ← pySlice2 topics (i * 2)
      autoFillAux topics anchor (i + 1) rem (dictInsert acc (isoOfOrd d) slice)

/-- The number of schedule days chosen at lines 412-417. -/
def autoDayCount (tlen : Nat) (days : Option Int) : Nat :=
  let nDays0 := max 1 ((tlen + 1) / 2)
  match days with
  | Option.some d => if d > 0 then max nDays0 d.toNat else nDays0
  | Option.none => nDays0

/-- The date-anchored filling attempt of lines 419-430 (target date
supplied). -/
def examAnchorAttempt (topics : PyVal) (ed : String) (nDays : Nat) :
    Except String PyDict :=
  match fromIsoOrd ed with
  | Option.none => .error "ValueError"
  | Option.some endOrd =>
    match subDays endOrd (nDays - 1) with
    | Option.none => .error "OverflowError"
    | Option.some start => autoFillAux topics start 0 nDays []

/-- The guard of line 409: schedule empty or at most one entry, and
topics present. -/
def autoGenCond (schedule topics : PyVal) : Bool :=
  let existing := match schedule with | .dict es => es.length | _ => 0
  (!pyTruthy schedule || existing ≤ 1) && pyTruthy topics

/-- The body of the auto-generation `try` of lines 407-439. -/
def autoGenAttempt (schedule topics : PyVal) (days : Option Int)
    (exam : Option String) (today : Nat) : Except String PyVal := do
  if autoGenCond schedule topics then do
    let tlen ← pyLen topics
    match exam with
    | Option.some ed =>
      match examAnchorAttempt topics ed (autoDayCount tlen days) with
      | .ok d => .ok (.dict d)
      | .error _ => do
        let d ← autoFillAux topics today 0 (autoDayCount tlen days) []
        .ok (.dict d)
    | Option.none => do
      let d ← autoFillAux topics today 0 (autoDayCount tlen days) []
      .ok (.dict d)
  else .ok schedule

/-- Lines 407-439: auto-generate a multi-day schedule; any failure
leaves the existing schedule (the outer `try`). -/
def autoGenSchedule (schedule topics : PyVal) (days : Option Int)
    (exam : Option String) (today : Nat) : PyVal :=
  match autoGenAttempt schedule topics days exam today with
  | .ok s => s
  | .error _ => schedule

/-- Lines 442-449: the last-line-of-defense shape guarantees. -/
def finalTopics (topics : PyVal) : PyVal :=
  match topics with
  | .list _ => topics
  | v => if pyTruthy v then .list [v] else .list []

def finalSchedule (schedule : PyVal) : PyVal :=
  match schedule with
  | .dict _ => schedule
  | v => if pyTruthy v then .dict [("", v)] else .dict []

def finalNotes (notes : PyVal) : PyVal :=
  match notes with
  | .dict _ => notes
  | .str _ => notes
  | v => if pyTruthy v then .dict [("notes", v)] else .dict []

def finalQuizzes (quizzes : PyVal) : PyVal :=
  match quizzes with
  | .dict _ => quizzes
  | v => if pyTruthy v then .dict [("quizzes", v)] else .dict []

/-- The canonical document handed to the template context (the
serialized snapshot `result_json` is presentation-only and outside the
model). -/
structure Doc where
  topics : PyVal
  schedule : PyVal
  notes : PyVal
  quizzes : PyVal
  raw : PyVal
  deriving Repr, DecidableEq

/-- Final pipeline segment: from the value-normalized schedule, the
topics after lines 365-380, the decoded notes, the coerced quizzes and
the blob, through lines 383-464. -/
def planTail (schedule topics notes quizzes raw : PyVal) (blob : Option PyVal)
    (syl : String) (exam : Option String) (days : Option Int) (today : Nat) :
    Except String Doc :=
  match syllabusTopicsFix topics syl with
  | .error e => .error e
  | .ok topics =>
    match notesSalvageStage notes raw with
    | .error e => .error e
    | .ok notes =>
      match quizBlobFix quizzes blob with
      | .error e => .error e
      | .ok quizzes =>
        let quizzes := quizStrFix quizzes
        let schedule := autoGenSchedule schedule topics days exam today
        .ok ⟨finalTopics topics, finalSchedule schedule, finalNotes notes,
             finalQuizzes quizzes, raw⟩

/-- Pipeline segment from the coerced fields onward (after line
246). -/
def planFromFields (topics schedule notes quizzes raw : PyVal)
    (blob : Option PyVal) (syl : String) (exam : Option String)
    (days : Option Int) (today : Nat) : Except String Doc :=
  let schedule := scheduleDecodeValues (scheduleListFix schedule)
  match scheduleKeyFix schedule raw quizzes topics today with
  | .error e => .error e
  | .ok schedule =>
    match scheduleValuesNorm schedule quizzes topics with
    | .error e => .error e
    | .ok schedule =>
      planTail schedule (deriveTopics topics schedule quizzes) notes quizzes raw
        blob syl exam days today

/-- Pipeline segment after the blob override (lines 243 onward). -/
def planFromResult (result : PyDict) (raw : PyVal) (blob : Option PyVal)
    (syl : String) (exam : Option String) (days : Option Int) (today : Nat) :
    Except String Doc :=
  let topics := pyOrV (tryLoadJson (dictGetD result "topics" (.list []))) (.list [])
  let schedule := pyOrV (tryLoadJson (dictGetD result "schedule" (.dict []))) (.dict [])
  match notesInit result with
  | .error e => .error e
  | .ok notes =>
    let quizzes := pyOrV (tryLoadJson (dictGetD result "quizzes" (.dict []))) (.dict [])
    planFromFields topics schedule notes quizzes raw blob syl exam days today

/-- The normalization section of `plan` (app.py lines 229-464):
`normalize(producerResult, originalSubjectText, targetDate, dayCount)`
in the spec's terms, with `today` the current date's ordinal.  An
`.error` is an uncaught Python exception escaping the request
handler. -/
def planNormalize (result : PyDict) (syl : String) (exam : Option String)
    (days : Option Int) (today : Nat) : Except String Doc :=
  let raw := rawOf result
  match extractJsonFromTextV raw with
  | .error e => .error e
  | .ok blob =>
    planFromResult (applyBlobOverride result blob) raw blob syl exam days today

/-! ### Statement helpers and claim inputs -/

/-- Keys of a schedule value (empty for a non-dict). -/
def pyKeys : PyVal → List String
  | .dict es => es.map fun e => e.1
  | _ => []

/-- The keys that `parse_schedule_from_text` recovers from the raw
value (empty when the raw value is not a truthy string). -/
def rawSchedKeys (raw : PyVal) : List String :=
  match raw with
  | .str s => (parseSchedText s).map fun e => e.1
  | _ => []

/-- A key either matches the code's date test, or came verbatim from
the raw-text schedule extraction, or is the wrapping fallback's empty
key. -/
def KeyOK (raw : PyVal) (k : String) : Prop :=
  pyDateMatch k = true ∨ k ∈ rawSchedKeys raw ∨ k = ""

/-- ProducerResult of Scenario A (claim C7). -/
def scenarioAResult : PyDict :=
  [("full_markdown", .str "- 2025-01-01: Intro\n- 2025-01-02: Loops"),
   ("topics", .list []), ("schedule", .dict []), ("notes", .dict []),
   ("quizzes", .dict [])]

/-- ProducerResult of Scenario B (claim C4). -/
def scenarioBResult : PyDict :=
  [("schedule", .dict [("Arrays", .list [.str "q1"]), ("Loops", .list [.str "q2"])]),
   ("topics", .list []), ("quizzes", .dict []), ("notes", .dict []),
   ("full_markdown", .str "")]

/-- ProducerResult of Scenario D (claim C8). -/
def scenarioDResult : PyDict :=
  [("topics", .list [.str "t1", .str "t2", .str "t3", .str "t4"]),
   ("schedule", .dict []), ("notes", .dict []), ("quizzes", .dict []),
   ("full_markdown", .str "")]

/-- A ProducerResult whose notes field is a string that is not valid
JSON (claim C1). -/
def c1FailingResult : PyDict :=
  [("topics", .list []), ("schedule", .dict []), ("notes", .str "hello"),
   ("quizzes", .dict []), ("full_markdown", .str "")]

/-- A ProducerResult whose raw text embeds a JSON `schedule` object
with non-date keys (claim C2). -/
def c2Result : PyDict :=
  [("topics", .list []), ("schedule", .dict []), ("notes", .dict []),
   ("quizzes", .dict []),
   ("full_markdown",
    .str "\x7b\"schedule\": \x7b\"Arrays\": \"a\", \"Loops\": \"b\"\x7d\x7d")]

/-- A ProducerResult whose topics field holds two case-insensitively
equal entries (claim C3). -/
def c3Result : PyDict :=
  [("topics", .list [.str "A", .str "a"]), ("schedule", .dict []),
   ("notes", .dict []), ("quizzes", .dict []), ("full_markdown", .str "")]

/-- An already-canonical document with an empty schedule and one topic
(claim C6): feeding it back regenerates the schedule. -/
def c6Result : PyDict :=
  [("topics", .list [.str "A"]), ("schedule", .dict []), ("notes", .dict []),
   ("quizzes", .dict []), ("full_markdown", .str "")]

/-! Spec-side formulation of the quiz-reattachment strategy (claim C9):
the ranked stages of §4.3/§9 of the spec, amended so that a stage's
empty-string result falls through to the next stage. -/

/-- Whitespace-trimmed question text of a question-like object (the
spec's "question texts"). -/
def specQuestionText (a : PyVal) : String :=
  match a with
  | .dict d =>
    match dmget d "question" with
    | .str s => pyStrip s
    | _ => ""
  | v => pyStrip (pyStr v)

/-- Stage 1: first quizzes key whose question list has the same length
and pairwise-equal trimmed question texts. -/
def specExactMatch (qes : PyDict) (xs : List PyVal) : Option String :=
  (qes.find? fun e =>
      match e.2 with
      | .list ql =>
        ql.length = xs.length &&
          decide (ql.map specQuestionText = xs.map specQuestionText)
      | _ => false).map fun e => e.1

/-- The concatenation of the list's question texts (untrimmed, as the
code joins them). -/
def specQText (xs : List PyVal) : String :=
  String.intercalate " "
    (xs.map fun q =>
      match q with
      | .dict d =>
        match dictGetD d "question" (.str "") with
        | .str s => s
        | _ => ""
      | v => pyStr v)

/-- Stage 2: first topic whose name occurs case-insensitively in the
question-text concatenation. -/
def specSubstringMatch (ts : List PyVal) (qtext : String) : Option String :=
  ts.findSome? fun t =>
    match t with
    | .str s => if strContainsSub (lowerS s) (lowerS qtext) then Option.some s else Option.none
    | _ => Option.none

/-- A stage's result is usable only when it is a non-empty string: an
empty-string match falls through to the next stage. -/
def stagePick : Option String → Option String
  | Option.some s => if s ≠ "" then Option.some s else Option.none
  | Option.none => Option.none

/-- Stage 3: the first topic, when it is a string. -/
def headTopic (ts : List PyVal) : Option String :=
  match ts.head? with
  | Option.some (PyVal.str s) => Option.some s
  | _ => Option.none

/-- The ranked matching strategy (exact match → substring relevance →
positional default), amended: a stage's empty-string result falls
through, and the default label is used when nothing non-empty
remains. -/
def specRankedChoice (qes : PyDict) (ts : List PyVal) (xs : List PyVal) : String :=
  match stagePick (specExactMatch qes xs) with
  | Option.some s => s
  | Option.none =>
    match stagePick (specSubstringMatch ts (specQText xs)) with
    | Option.some s => s
    | Option.none =>
      match stagePick (headTopic ts) with
      | Option.some s => s
      | Option.none => "General"


/-- Well-formed question-like object: a dict whose `question` key holds
a string. -/
def qItemOK (a : PyVal) : Bool :=
  match a with
  | .dict d =>
    match dictGet d "question" with
    | Option.some (.str _) => true
    | _ => false
  | _ => false

/-- Well-formed quizzes entry: a list value holds only well-formed
question-like objects. -/
def quizEntryOK (e : String × PyVal) : Bool :=
  match e.2 with
  | PyVal.list ql => ql.all qItemOK
  | _ => true

/-- A schedule-value item already in canonical form: a string fixed by
`strip()`. -/
def strFixed (it : PyVal) : Bool :=
  match it with
  | PyVal.str s => pyStrip s = s
  | _ => false

/-- A canonical schedule value: a non-empty list of whitespace-trimmed
strings (claim C6's value shape). -/
def canonValOK : PyVal → Bool
  | .list xs => !xs.isEmpty && xs.all strFixed
  | _ => false

/-! ### Lemmas about the date model -/

theorem ifBoolNat (c : Bool) : (if c = true then (1 : Nat) else 0) = c.toNat := by
  cases c <;> rfl

/-- The estimate-and-correct month/day step is exact on one year's
remainder: bounds and the inversion identity. -/
theorem mdSpec : ∀ r4 < 365, ∀ leap : Bool,
    1 ≤ (monthDayOf r4 leap).1 ∧ (monthDayOf r4 leap).1 ≤ 12 ∧
    1 ≤ (monthDayOf r4 leap).2 ∧
    (monthDayOf r4 leap).2 ≤
      (if (monthDayOf r4 leap).1 = 2 && leap then 29
       else daysInMonthTable (monthDayOf r4 leap).1) ∧
    daysBeforeMonth (monthDayOf r4 leap).1 +
      (if 2 < (monthDayOf r4 leap).1 && leap then 1 else 0) +
      (monthDayOf r4 leap).2 = r4 + 1 := by decide

set_option maxHeartbeats 1000000 in
/-- `_ymd2ord` inverts `_ord2ymd`: the two CPython conversions are
mutually consistent, hence `ord2ymd` is injective on ordinals. -/
theorem ord2ymd_roundtrip (n : Nat) (h : 1 ≤ n) :
    ymd2ord (ord2ymd n).1 (ord2ymd n).2.1 (ord2ymd n).2.2 = n := by
  rcases hE : ord2ymd n with ⟨y, m, d⟩
  show ymd2ord y m d = n
  unfold ord2ymd at hE
  simp only [] at hE
  set n0 := n - 1 with hn0
  set n400 := n0 / 146097 with h400
  set r1 := n0 % 146097 with hr1
  set n100 := r1 / 36524 with h100
  set r2 := r1 % 36524 with hr2
  set n4 := r2 / 1461 with h4
  set r3 := r2 % 1461 with hr3
  set n1 := r3 / 365 with h1'
  set r4 := r3 % 365 with hr4
  have e1 : 146097 * n400 + r1 = n0 := Nat.div_add_mod n0 146097
  have e2 : 36524 * n100 + r2 = r1 := Nat.div_add_mod r1 36524
  have e3 : 1461 * n4 + r3 = r2 := Nat.div_add_mod r2 1461
  have e4 : 365 * n1 + r4 = r3 := Nat.div_add_mod r3 365
  have hbr1 : r1 < 146097 := Nat.mod_lt _ (by norm_num)
  have hbr2 : r2 < 36524 := Nat.mod_lt _ (by norm_num)
  have hbr3 : r3 < 1461 := Nat.mod_lt _ (by norm_num)
  have hb4 : r4 < 365 := Nat.mod_lt _ (by norm_num)
  clear_value n0 n400 r1 n100 r2 n4 r3 n1 r4
  clear h400 hr1 h100 hr2 h4 hr3 h1' hr4
  have hq3 : 365 * n1 + r4 < 1461 := by omega
  have hq2 : 1461 * n4 + 365 * n1 + r4 < 36524 := by omega
  have hq1 : 36524 * n100 + 1461 * n4 + 365 * n1 + r4 < 146097 := by omega
  have hdecomp : n = 146097 * n400 + 36524 * n100 + 1461 * n4 + 365 * n1 + r4 + 1 := by
    omega
  clear e1 e2 e3 e4 hbr1 hbr2 hbr3 hn0 h
  unfold ymd2ord
  by_cases hc : n1 = 4 ∨ n100 = 4
  · have hcond : (decide (n1 = 4) || decide (n100 = 4)) = true := by
      rcases hc with hc | hc <;> simp [hc]
    rw [hcond, if_pos rfl] at hE
    obtain ⟨hy, hm, hd⟩ : (n400 * 400 + 1 + n100 * 100 + n4 * 4 + n1 - 1 = y) ∧
        ((12 : Nat) = m) ∧ ((31 : Nat) = d) :=
      ⟨congrArg (·.1) hE, congrArg (·.2.1) hE, congrArg (·.2.2) hE⟩
    subst hm hd
    clear hE hcond
    have hdbm : daysBeforeMonth 12 = 334 := rfl
    rw [hdbm]
    rcases hc with hc1 | hc1
    · have hfacts : n4 ≤ 23 ∧ n100 ≤ 3 ∧ r4 = 0 ∧
          y = n400 * 400 + n100 * 100 + n4 * 4 + 4 := by omega
      obtain ⟨hf1, hf2, hf3, hf4⟩ := hfacts
      have hleap : isLeap y = true := by
        simp only [isLeap, Bool.and_eq_true, Bool.or_eq_true, decide_eq_true_eq,
          bne_iff_ne, ne_eq]
        omega
      rw [hleap]
      have hv4 : (y - 1) / 4 = 100 * n400 + 25 * n100 + n4 := by omega
      have hv100 : (y - 1) / 100 = 4 * n400 + n100 := by omega
      have hv400 : (y - 1) / 400 = n400 := by omega
      norm_num
      omega
    · have hfacts : n4 = 0 ∧ n1 = 0 ∧ r4 = 0 ∧ y = n400 * 400 + 400 := by omega
      obtain ⟨hf1, hf2, hf3, hf4⟩ := hfacts
      have hleap : isLeap y = true := by
        simp only [isLeap, Bool.and_eq_true, Bool.or_eq_true, decide_eq_true_eq,
          bne_iff_ne, ne_eq]
        omega
      rw [hleap]
      have hv4 : (y - 1) / 4 = 100 * n400 + 99 := by omega
      have hv100 : (y - 1) / 100 = 4 * n400 + 3 := by omega
      have hv400 : (y - 1) / 400 = n400 := by omega
      norm_num
      omega
  · have hcond : (decide (n1 = 4) || decide (n100 = 4)) = false := by
      push_neg at hc
      simp [hc.1, hc.2]
    rw [hcond] at hE
    simp only [Bool.false_eq_true, if_false] at hE
    push_neg at hc
    obtain ⟨hy, hm, hd⟩ : (n400 * 400 + 1 + n100 * 100 + n4 * 4 + n1 = y) ∧
        ((monthDayOf r4 (decide (n1 = 3) && (n4 != 24 || decide (n100 = 3)))).1 = m) ∧
        ((monthDayOf r4 (decide (n1 = 3) && (n4 != 24 || decide (n100 = 3)))).2 = d) :=
      ⟨congrArg (·.1) hE, congrArg (·.2.1) hE, congrArg (·.2.2) hE⟩
    clear hE
    obtain ⟨hm1, hm2, hd1, hd2, hsum⟩ :=
      mdSpec r4 hb4 (decide (n1 = 3) && (n4 != 24 || decide (n100 = 3)))
    rw [hm, hd] at hsum
    rw [hm] at hm1 hm2
    clear hd2 hd1 hm hd
    have hn1b : n1 ≤ 3 := by omega
    have hn100b : n100 ≤ 3 := by omega
    have hn4b : n4 ≤ 24 := by omega
    have hleapeq : isLeap y = (decide (n1 = 3) && (n4 != 24 || decide (n100 = 3))) := by
      clear hsum hm1 hm2 hdecomp hq1 hq2 hq3 hb4 hcond
      have m4 : y % 4 = (n1 + 1) % 4 := by omega
      have m100 : y % 100 = (4 * n4 + n1 + 1) % 100 := by omega
      have m400 : y % 400 = (100 * n100 + 4 * n4 + n1 + 1) % 400 := by omega
      clear hy
      rw [Bool.eq_iff_iff]
      simp only [isLeap, Bool.and_eq_true, Bool.or_eq_true, decide_eq_true_eq,
        bne_iff_ne, ne_eq]
      rw [m4, m100, m400]
      omega
    rw [hleapeq]
    rw [ifBoolNat] at hsum ⊢
    simp only [] at hsum ⊢
    have hv4 : (y - 1) / 4 = 100 * n400 + 25 * n100 + n4 := by omega
    have hv100 : (y - 1) / 100 = 4 * n400 + n100 := by omega
    have hv400 : (y - 1) / 400 = n400 := by omega
    cases hL : (decide (n1 = 3) && (n4 != 24 || decide (n100 = 3))) with
    | false =>
        rw [hL] at hsum
        simp only [Bool.and_false, Bool.toNat_false] at hsum ⊢
        omega
    | true =>
        rw [hL] at hsum
        cases hM : decide (2 < m) <;> rw [hM] at hsum <;>
          simp only [Bool.false_and, Bool.true_and, Bool.and_true, Bool.and_false,
            Bool.toNat_false, Bool.toNat_true] at hsum ⊢ <;>
          omega

/-- `ord2ymd` is injective on positive ordinals. -/
theorem ord2ymd_inj (a b : Nat) (ha : 1 ≤ a) (hb : 1 ≤ b)
    (h : ord2ymd a = ord2ymd b) : a = b := by
  have h1 := ord2ymd_roundtrip a ha
  have h2 := ord2ymd_roundtrip b hb
  rw [h] at h1
  omega

theorem isDig_digitChar_lt : ∀ k < 10, isDig (digitChar k) = true := by decide

theorem isDig_digitChar_mod (x : Nat) : isDig (digitChar (x % 10)) = true :=
  isDig_digitChar_lt _ (Nat.mod_lt _ (by norm_num))

/-- The isoformat of any ordinal matches `\d{4}-\d{2}-\d{2}` exactly. -/
theorem strictDateMatch_isoOfOrd (n : Nat) : strictDateMatch (isoOfOrd n) = true := by
  unfold isoOfOrd
  rcases ord2ymd n with ⟨y, m, d⟩
  simp only [strictDateMatch, pad4, pad2]
  show dateShape _ = true
  simp [dateShape, isDig_digitChar_mod]

theorem pyDateMatch_of_strict {s : String} (h : strictDateMatch s = true) :
    pyDateMatch s = true := by
  simp only [pyDateMatch, Bool.or_eq_true]
  exact Or.inl h

theorem pyDateMatch_isoOfOrd (n : Nat) : pyDateMatch (isoOfOrd n) = true :=
  pyDateMatch_of_strict (strictDateMatch_isoOfOrd n)

theorem digitChar_inj : ∀ a < 10, ∀ b < 10, digitChar a = digitChar b → a = b := by
  decide

/-- Year bound: in-range ordinals stay within four-digit years. -/
theorem ord2ymd_year_le (n : Nat) (h2 : n ≤ maxOrdinal) : (ord2ymd n).1 ≤ 9999 := by
  unfold ord2ymd maxOrdinal at *
  simp only []
  split <;> omega

theorem mdBound : ∀ r4 < 365, ∀ leap : Bool,
    (monthDayOf r4 leap).1 ≤ 12 ∧ (monthDayOf r4 leap).2 ≤ 31 := by decide

/-- Month and day components are two-digit. -/
theorem ord2ymd_md_le (n : Nat) :
    (ord2ymd n).2.1 ≤ 99 ∧ (ord2ymd n).2.2 ≤ 99 := by
  rcases hE : ord2ymd n with ⟨y, m, d⟩
  show m ≤ 99 ∧ d ≤ 99
  unfold ord2ymd at hE
  simp only [] at hE
  set r4 := (n - 1) % 146097 % 36524 % 1461 % 365 with hr4
  have hb4 : r4 < 365 := Nat.mod_lt _ (by norm_num)
  split at hE
  · have hm : (12 : Nat) = m := congrArg (·.2.1) hE
    have hd : (31 : Nat) = d := congrArg (·.2.2) hE
    omega
  · set L := (decide ((n - 1) % 146097 % 36524 % 1461 / 365 = 3) &&
      ((n - 1) % 146097 % 36524 / 1461 != 24 ||
        decide ((n - 1) % 146097 / 36524 = 3))) with hLdef
    obtain ⟨hm', hd'⟩ := mdBound r4 hb4 L
    have hm : (monthDayOf r4 L).1 = m := congrArg (·.2.1) hE
    have hd : (monthDayOf r4 L).2 = d := congrArg (·.2.2) hE
    omega

/-- `isoOfOrd` is injective on the valid ordinal range. -/
theorem isoOfOrd_inj (a b : Nat) (ha1 : 1 ≤ a) (ha2 : a ≤ maxOrdinal)
    (hb1 : 1 ≤ b) (hb2 : b ≤ maxOrdinal) (h : isoOfOrd a = isoOfOrd b) : a = b := by
  apply ord2ymd_inj a b ha1 hb1
  unfold isoOfOrd at h
  rcases hA : ord2ymd a with ⟨ya, ma, da⟩
  rcases hB : ord2ymd b with ⟨yb, mb, db⟩
  rw [hA] at h
  rw [hB] at h
  have hya : ya ≤ 9999 := by
    have hx := ord2ymd_year_le a ha2; rw [hA] at hx; exact hx
  have hyb : yb ≤ 9999 := by
    have hx := ord2ymd_year_le b hb2; rw [hB] at hx; exact hx
  obtain ⟨hma1, hma2⟩ : ma ≤ 99 ∧ da ≤ 99 := by
    have hx := ord2ymd_md_le a; rw [hA] at hx; exact hx
  obtain ⟨hmb1, hmb2⟩ : mb ≤ 99 ∧ db ≤ 99 := by
    have hx := ord2ymd_md_le b; rw [hB] at hx; exact hx
  simp only [pad4, pad2] at h
  have hl : ([digitChar (ya / 1000 % 10), digitChar (ya / 100 % 10),
      digitChar (ya / 10 % 10), digitChar (ya % 10)] ++ '-' ::
      [digitChar (ma / 10 % 10), digitChar (ma % 10)] ++ '-' ::
      [digitChar (da / 10 % 10), digitChar (da % 10)] : List Char) =
      [digitChar (yb / 1000 % 10), digitChar (yb / 100 % 10),
      digitChar (yb / 10 % 10), digitChar (yb % 10)] ++ '-' ::
      [digitChar (mb / 10 % 10), digitChar (mb % 10)] ++ '-' ::
      [digitChar (db / 10 % 10), digitChar (db % 10)] := congrArg String.data h
  simp only [List.cons_append, List.nil_append, List.cons.injEq, and_true] at hl
  obtain ⟨q1, q2, q3, q4, _, q5, q6, _, q7, q8⟩ := hl
  have d10 : ∀ x : Nat, x % 10 < 10 := fun x => Nat.mod_lt _ (by norm_num)
  have g1 := digitChar_inj _ (d10 _) _ (d10 _) q1
  have g2 := digitChar_inj _ (d10 _) _ (d10 _) q2
  have g3 := digitChar_inj _ (d10 _) _ (d10 _) q3
  have g4 := digitChar_inj _ (d10 _) _ (d10 _) q4
  have g5 := digitChar_inj _ (d10 _) _ (d10 _) q5
  have g6 := digitChar_inj _ (d10 _) _ (d10 _) q6
  have g7 := digitChar_inj _ (d10 _) _ (d10 _) q7
  have g8 := digitChar_inj _ (d10 _) _ (d10 _) q8
  have : ya = yb := by omega
  have : ma = mb := by omega
  have : da = db := by omega
  simp_all

/-- Consecutive in-range ordinals have distinct isoformats. -/
theorem isoOfOrd_succ_ne (n : Nat) (h1 : 1 ≤ n) (h2 : n + 1 ≤ maxOrdinal) :
    isoOfOrd n ≠ isoOfOrd (n + 1) := by
  intro h
  have := isoOfOrd_inj n (n + 1) h1 (by omega) (by omega) h2 h
  omega

theorem addDays_eq (n i : Nat) (h1 : 1 ≤ n + i) (h2 : n + i ≤ maxOrdinal) :
    addDays n i = Option.some (n + i) := by
  simp [addDays, h1, h2]

lemma containsStr_iff (l : List String) (a : String) : l.contains a = true ↔ a ∈ l := by
  simp [List.contains, List.elem_iff]

lemma dedupCIAux_spec : ∀ (rest seen : List String),
    (dedupCIAux seen rest).Pairwise (fun a b => lowerS a ≠ lowerS b) ∧
    ∀ t ∈ dedupCIAux seen rest, lowerS t ∉ seen := by
  intro rest
  induction rest with
  | nil => intro seen; exact ⟨by simp [dedupCIAux], by simp [dedupCIAux]⟩
  | cons t rest ih =>
    intro seen
    by_cases hc : (t ≠ "" && !seen.contains (lowerS t)) = true
    · have hres : dedupCIAux seen (t :: rest) =
          t :: dedupCIAux (lowerS t :: seen) rest := by
        simp only [dedupCIAux]
        rw [if_pos hc]
      obtain ⟨ih1, ih2⟩ := ih (lowerS t :: seen)
      rw [hres]
      have hnotin : lowerS t ∉ seen := by
        simp only [Bool.and_eq_true, Bool.not_eq_true'] at hc
        intro hmem
        have h2 := (containsStr_iff seen (lowerS t)).2 hmem
        rw [hc.2] at h2
        exact Bool.noConfusion h2
      refine ⟨?_, ?_⟩
      · refine List.Pairwise.cons ?_ ih1
        intro b hb heq
        exact ih2 b hb (heq ▸ List.mem_cons_self _ _)
      · intro u hu
        cases hu with
        | head => exact hnotin
        | tail _ hu =>
          intro hmem
          exact ih2 u hu (List.mem_cons_of_mem _ hmem)
    · have hres : dedupCIAux seen (t :: rest) = dedupCIAux seen rest := by
        simp only [dedupCIAux]
        rw [if_neg hc]
      rw [hres]; exact ih seen

lemma dedupKeysAux_spec : ∀ (rest seen : List String),
    (dedupKeysAux seen rest).Pairwise (fun a b => a ≠ b) ∧
    ∀ t ∈ dedupKeysAux seen rest, t ∉ seen := by
  intro rest
  induction rest with
  | nil => intro seen; exact ⟨by simp [dedupKeysAux], by simp [dedupKeysAux]⟩
  | cons t rest ih =>
    intro seen
    by_cases hc : seen.contains t = true
    · have hres : dedupKeysAux seen (t :: rest) = dedupKeysAux seen rest := by
        simp only [dedupKeysAux]
        rw [if_pos hc]
      rw [hres]; exact ih seen
    · have hres : dedupKeysAux seen (t :: rest) =
          t :: dedupKeysAux (t :: seen) rest := by
        simp only [dedupKeysAux]
        rw [if_neg hc]
      obtain ⟨ih1, ih2⟩ := ih (t :: seen)
      rw [hres]
      have hnotin : t ∉ seen := fun hmem => hc ((containsStr_iff seen t).2 hmem)
      refine ⟨?_, ?_⟩
      · refine List.Pairwise.cons ?_ ih1
        intro b hb heq
        exact ih2 b hb (heq ▸ List.mem_cons_self _ _)
      · intro u hu
        cases hu with
        | head => exact hnotin
        | tail _ hu =>
          intro hmem
          exact ih2 u hu (List.mem_cons_of_mem _ hmem)

lemma findIdx_rb : ∀ (l : List Char), (∀ c ∈ l, c ≠ rbrace) → ∀ (r : List Char) (i : Nat),
    List.findIdx? (fun c => c = rbrace) (l ++ rbrace :: r) i = Option.some (i + l.length) := by
  intro l
  induction l with
  | nil => intro _ r i; simp [List.findIdx?]
  | cons c tl ih =>
    intro h r i
    have hc : c ≠ rbrace := h c (List.mem_cons_self _ _)
    have ih2 := ih (fun x hx => h x (List.mem_cons_of_mem _ hx)) r (i + 1)
    simp only [List.cons_append, List.findIdx?, List.append_eq]
    rw [if_neg (by simp [hc])]
    rw [ih2]
    congr 1
    simp only [List.length_cons]
    omega

lemma lastRBraceIdx_single (mid post : List Char)
    (hpost : ∀ c ∈ post, c ≠ rbrace) :
    lastRBraceIdx (mid ++ rbrace :: post) = Option.some mid.length := by
  unfold lastRBraceIdx
  have hrev : (mid ++ rbrace :: post).reverse = post.reverse ++ rbrace :: mid.reverse := by
    simp [List.reverse_append]
  rw [hrev]
  have hpr : ∀ c ∈ post.reverse, c ≠ rbrace := fun c hc => hpost c (List.mem_reverse.mp hc)
  rw [findIdx_rb post.reverse hpr mid.reverse 0]
  show Option.some ((mid ++ rbrace :: post).length - 1 - (0 + post.reverse.length)) =
    Option.some mid.length
  congr 1
  simp only [List.length_append, List.length_cons, List.length_reverse]
  omega

lemma bareSearchAux_none : ∀ (fuel : Nat) (l : List Char), (∀ c ∈ l, c ≠ lbrace) →
    bareSearchAux fuel l = Option.none := by
  intro fuel
  induction fuel with
  | zero => intro l _; rfl
  | succ n ih =>
    intro l hl
    cases l with
    | nil => rfl
    | cons c tl =>
      have hc : c ≠ lbrace := hl c (List.mem_cons_self _ _)
      simp only [bareSearchAux]
      rw [if_neg hc]
      exact ih tl fun x hx => hl x (List.mem_cons_of_mem _ hx)

lemma bareSearchAux_skip : ∀ (pre : List Char) (fuel : Nat) (l : List Char),
    (∀ c ∈ pre, c ≠ lbrace) →
    bareSearchAux (pre.length + fuel) (pre ++ l) = bareSearchAux fuel l := by
  intro pre
  induction pre with
  | nil => intro fuel l _; simp
  | cons c pre ih =>
    intro fuel l h
    have hc : c ≠ lbrace := h c (List.mem_cons_self _ _)
    have he : (c :: pre).length + fuel = (pre.length + fuel) + 1 := by
      simp only [List.length_cons]; omega
    rw [he, List.cons_append]
    simp only [bareSearchAux]
    rw [if_neg hc]
    exact ih fuel l fun x hx => h x (List.mem_cons_of_mem _ hx)

lemma bareSearchAux_short (fuel : Nat) (mid post : List Char)
    (hpostr : ∀ c ∈ post, c ≠ rbrace)
    (hlt : mid.length < 50) :
    bareSearchAux (fuel + 1) (lbrace :: (mid ++ rbrace :: post)) =
      bareSearchAux fuel (mid ++ rbrace :: post) := by
  have hw : (mid ++ rbrace :: post).take 10001 =
      mid ++ rbrace :: post.take (10000 - mid.length) := by
    rw [List.take_append_eq_append_take]
    have h1 : mid.take 10001 = mid := List.take_of_length_le (by omega)
    have h2 : 10001 - mid.length = (10000 - mid.length) + 1 := by omega
    rw [h1, h2]
    rfl
  have hpost2 : ∀ c ∈ post.take (10000 - mid.length), c ≠ rbrace :=
    fun c hc => hpostr c (List.mem_of_mem_take hc)
  have hlast := lastRBraceIdx_single mid (post.take (10000 - mid.length)) hpost2
  have h50 : ¬ (50 ≤ mid.length) := by omega
  simp only [bareSearchAux, eq_self_iff_true, if_true]
  rw [hw, hlast]
  simp [h50]

lemma fencedSearchAux_none : ∀ (fuel : Nat) (l : List Char), (∀ c ∈ l, c ≠ btick) →
    fencedSearchAux fuel l = Option.none := by
  intro fuel
  induction fuel with
  | zero => intro l _; rfl
  | succ n ih =>
    intro l hl
    cases l with
    | nil => rfl
    | cons c tl =>
      have hc : c ≠ btick := hl c (List.mem_cons_self _ _)
      simp only [fencedSearchAux]
      rw [if_neg hc]
      show fencedSearchAux n tl = Option.none
      exact ih tl fun x hx => hl x (List.mem_cons_of_mem _ hx)

lemma extractJsonFromTextS_none (text : String)
    (hf : fencedSearchAux text.data.length text.data = Option.none)
    (hb : bareSearchAux text.data.length text.data = Option.none) :
    extractJsonFromTextS text = Option.none := by
  unfold extractJsonFromTextS
  rw [hf, hb]



lemma questionTextOfA_ok (a : PyVal) (h : qItemOK a = true) :
    questionTextOfA a = .ok (specQuestionText a) := by
  cases a with
  | dict d =>
    cases hg : dictGet d "question" with
    | none => simp [qItemOK, hg] at h
    | some v =>
      cases v with
      | str s =>
        have hd : dmget d "question" = .str s := by simp [dmget, hg]
        by_cases hs : s = ""
        · subst hs
          simp [questionTextOfA, specQuestionText, hd, pyTruthy]
        · have htr : pyTruthy (PyVal.str s) = true := by simp [pyTruthy, hs]
          simp [questionTextOfA, specQuestionText, hd, htr]
      | none => simp [qItemOK, hg] at h
      | bool b => simp [qItemOK, hg] at h
      | int n => simp [qItemOK, hg] at h
      | list l => simp [qItemOK, hg] at h
      | dict d2 => simp [qItemOK, hg] at h
  | none => simp [qItemOK] at h
  | bool b => simp [qItemOK] at h
  | int n => simp [qItemOK] at h
  | str s => simp [qItemOK] at h
  | list l => simp [qItemOK] at h

lemma quizPairsEqual_ok : ∀ (ql xs : List PyVal), (∀ a ∈ ql, qItemOK a = true) →
    (∀ a ∈ xs, qItemOK a = true) → ql.length = xs.length →
    quizPairsEqual ql xs =
      .ok (decide (ql.map specQuestionText = xs.map specQuestionText)) := by
  intro ql
  induction ql with
  | nil =>
    intro xs _ _ hlen
    cases xs with
    | nil => rfl
    | cons b bs => simp at hlen
  | cons a as ih =>
    intro xs hql hxs hlen
    cases xs with
    | nil => simp at hlen
    | cons b bs =>
      have ha := hql a (List.mem_cons_self _ _)
      have hb := hxs b (List.mem_cons_self _ _)
      have h1 := questionTextOfA_ok a ha
      have h2 := questionTextOfA_ok b hb
      simp only [quizPairsEqual, h1, h2, Except.bind, bind]
      by_cases heq : specQuestionText a = specQuestionText b
      · rw [if_neg (by simp [heq])]
        rw [ih bs (fun y hy => hql y (List.mem_cons_of_mem _ hy))
            (fun y hy => hxs y (List.mem_cons_of_mem _ hy)) (by simpa using hlen)]
        congr 1
        simp only [List.map_cons, List.cons.injEq, heq, true_and]
      · rw [if_pos heq]
        congr 1
        simp [List.map_cons, List.cons.injEq, heq]

lemma quizExactLoop_spec (xs : List PyVal) (hxs : ∀ a ∈ xs, qItemOK a = true) :
    ∀ qes : PyDict,
    (∀ e ∈ qes, ∀ ql, e.2 = PyVal.list ql → ∀ a ∈ ql, qItemOK a = true) →
    quizExactLoop xs qes =
      (match specExactMatch qes xs with
       | Option.some t => PyVal.str t
       | Option.none => PyVal.none) := by
  intro qes
  induction qes with
  | nil => intro _; rfl
  | cons e rest ih =>
    intro hq
    obtain ⟨tname, qlist⟩ := e
    have hrest := ih fun y hy ql hql a ha => hq y (List.mem_cons_of_mem _ hy) ql hql a ha
    cases qlist with
    | list ql =>
      have hqlOK : ∀ a ∈ ql, qItemOK a = true :=
        hq (tname, .list ql) (List.mem_cons_self _ _) ql rfl
      by_cases hlen : ql.length = xs.length
      · rw [show quizExactLoop xs ((tname, PyVal.list ql) :: rest) =
            (if ql.length = xs.length then
              match quizPairsEqual ql xs with
              | .ok true => PyVal.str tname
              | .ok false => quizExactLoop xs rest
              | .error _ => quizExactLoop xs rest
            else quizExactLoop xs rest) from rfl]
        rw [if_pos hlen, quizPairsEqual_ok ql xs hqlOK hxs hlen]
        by_cases heq : ql.map specQuestionText = xs.map specQuestionText
        · have hd : decide (ql.map specQuestionText = xs.map specQuestionText) = true := by
            simp [heq]
          rw [hd]
          have hse : specExactMatch ((tname, PyVal.list ql) :: rest) xs =
              Option.some tname := by
            simp [specExactMatch, List.find?, hlen, heq]
          rw [hse]
        · have hd : decide (ql.map specQuestionText = xs.map specQuestionText) = false := by
            simp [heq]
          rw [hd]
          have hse : specExactMatch ((tname, PyVal.list ql) :: rest) xs =
              specExactMatch rest xs := by
            simp [specExactMatch, List.find?, heq]
          rw [hse]
          exact hrest
      · rw [show quizExactLoop xs ((tname, PyVal.list ql) :: rest) =
            (if ql.length = xs.length then
              match quizPairsEqual ql xs with
              | .ok true => PyVal.str tname
              | .ok false => quizExactLoop xs rest
              | .error _ => quizExactLoop xs rest
            else quizExactLoop xs rest) from rfl]
        rw [if_neg hlen]
        have hse : specExactMatch ((tname, PyVal.list ql) :: rest) xs =
            specExactMatch rest xs := by
          simp [specExactMatch, List.find?, hlen]
        rw [hse]
        exact hrest
    | none =>
      have hse : specExactMatch ((tname, PyVal.none) :: rest) xs =
          specExactMatch rest xs := by
        simp [specExactMatch, List.find?]
      rw [show quizExactLoop xs ((tname, PyVal.none) :: rest) =
          quizExactLoop xs rest from rfl, hse]
      exact hrest
    | bool b =>
      have hse : specExactMatch ((tname, PyVal.bool b) :: rest) xs =
          specExactMatch rest xs := by
        simp [specExactMatch, List.find?]
      rw [show quizExactLoop xs ((tname, PyVal.bool b) :: rest) =
          quizExactLoop xs rest from rfl, hse]
      exact hrest
    | int n =>
      have hse : specExactMatch ((tname, PyVal.int n) :: rest) xs =
          specExactMatch rest xs := by
        simp [specExactMatch, List.find?]
      rw [show quizExactLoop xs ((tname, PyVal.int n) :: rest) =
          quizExactLoop xs rest from rfl, hse]
      exact hrest
    | str s =>
      have hse : specExactMatch ((tname, PyVal.str s) :: rest) xs =
          specExactMatch rest xs := by
        simp [specExactMatch, List.find?]
      rw [show quizExactLoop xs ((tname, PyVal.str s) :: rest) =
          quizExactLoop xs rest from rfl, hse]
      exact hrest
    | dict d =>
      have hse : specExactMatch ((tname, PyVal.dict d) :: rest) xs =
          specExactMatch rest xs := by
        simp [specExactMatch, List.find?]
      rw [show quizExactLoop xs ((tname, PyVal.dict d) :: rest) =
          quizExactLoop xs rest from rfl, hse]
      exact hrest

lemma qtextOf_ok (xs : List PyVal) (h : ∀ a ∈ xs, qItemOK a = true) :
    qtextOf xs = .ok (specQText xs) := by
  unfold qtextOf specQText
  have hall : (xs.map fun q =>
      match q with
      | PyVal.dict d => dictGetD d "question" (.str "")
      | v => PyVal.str (pyStr v)).all
        (fun p => match p with | PyVal.str _ => true | _ => false) = true := by
    rw [List.all_map]
    apply List.all_eq_true.mpr
    intro a ha
    have haOK := h a ha
    cases a with
    | dict d =>
      cases hg : dictGet d "question" with
      | none => simp [qItemOK, hg] at haOK
      | some v =>
        cases v with
        | str s => simp [Function.comp, dictGetD, hg]
        | none => simp [qItemOK, hg] at haOK
        | bool b => simp [qItemOK, hg] at haOK
        | int n => simp [qItemOK, hg] at haOK
        | list l => simp [qItemOK, hg] at haOK
        | dict d2 => simp [qItemOK, hg] at haOK
    | none => simp [qItemOK] at haOK
    | bool b => simp [qItemOK] at haOK
    | int n => simp [qItemOK] at haOK
    | str s => simp [qItemOK] at haOK
    | list l => simp [qItemOK] at haOK
  simp only []
  rw [if_pos hall]
  congr 2
  rw [List.map_map]
  apply List.map_congr_left
  intro a ha
  have haOK := h a ha
  cases a with
  | dict d =>
    cases hg : dictGet d "question" with
    | none => simp [qItemOK, hg] at haOK
    | some v =>
      cases v with
      | str s => simp [Function.comp, dictGetD, hg, pyStr]
      | none => simp [qItemOK, hg] at haOK
      | bool b => simp [qItemOK, hg] at haOK
      | int n => simp [qItemOK, hg] at haOK
      | list l => simp [qItemOK, hg] at haOK
      | dict d2 => simp [qItemOK, hg] at haOK
  | none => simp [qItemOK] at haOK
  | bool b => simp [qItemOK] at haOK
  | int n => simp [qItemOK] at haOK
  | str s => simp [qItemOK] at haOK
  | list l => simp [qItemOK] at haOK

lemma specSubstring_find (ts : List PyVal) (q : String) :
    specSubstringMatch ts q =
      (match ts.find? (subPred q) with
       | Option.some (PyVal.str ss) => Option.some ss
       | _ => Option.none) := by
  induction ts with
  | nil => rfl
  | cons t ts ih =>
    cases t with
    | str s =>
      by_cases hc : strContainsSub (lowerS s) (lowerS q) = true
      · simp [specSubstringMatch, List.findSome?_cons, List.find?, subPred, hc]
      · have hc2 : strContainsSub (lowerS s) (lowerS q) = false := by
          cases hcc : strContainsSub (lowerS s) (lowerS q) with
          | true => exact absurd hcc hc
          | false => rfl
        simp only [specSubstringMatch, List.findSome?_cons, List.find?, subPred, hc2,
          if_false]
        exact ih
    | none =>
      simp only [specSubstringMatch, List.findSome?_cons, List.find?, subPred]
      exact ih
    | bool b =>
      simp only [specSubstringMatch, List.findSome?_cons, List.find?, subPred]
      exact ih
    | int n =>
      simp only [specSubstringMatch, List.findSome?_cons, List.find?, subPred]
      exact ih
    | list l =>
      simp only [specSubstringMatch, List.findSome?_cons, List.find?, subPred]
      exact ih
    | dict d =>
      simp only [specSubstringMatch, List.findSome?_cons, List.find?, subPred]
      exact ih

lemma stagePick_none : stagePick Option.none = Option.none := rfl

lemma stagePick_empty : stagePick (Option.some "") = Option.none := by
  simp [stagePick]

lemma stagePick_some (s : String) (hs : s ≠ "") :
    stagePick (Option.some s) = Option.some s := by
  simp [stagePick, hs]

lemma headTopic_cons_str (s : String) (ts : List PyVal) :
    headTopic (PyVal.str s :: ts) = Option.some s := rfl

lemma c9_tail_propagate (qes : PyDict) (ts : List PyVal) (x : PyVal) (rest : List PyVal)
    (hall : ∀ a ∈ x :: rest, qItemOK a = true)
    (hts : ∀ t ∈ ts, ∃ s, t = PyVal.str s)
    (m1v : PyVal) (hf : pyTruthy m1v = false)
    (hp1 : stagePick (specExactMatch qes (x :: rest)) = Option.none) :
    (do
      let m2 ←
        if !pyTruthy m1v && pyTruthy (PyVal.list ts) then do
          let q ← qtextOf (x :: rest)
          let tsv ← pyIter (PyVal.list ts)
          let mSub := (tsv.find? (subPred q)).getD PyVal.none
          if pyTruthy mSub then pure mSub else pyIndex0 (PyVal.list ts)
        else pure m1v
      Except.ok (if pyTruthy m2 then PyVal.list [m2]
        else PyVal.list [PyVal.str "General"])) =
      Except.ok (.list [.str (specRankedChoice qes ts (x :: rest))]) := by
  have hqt := qtextOf_ok (x :: rest) hall
  cases ts with
  | nil =>
    have hT : pyTruthy (PyVal.list ([] : List PyVal)) = false := rfl
    have hrc : specRankedChoice qes [] (x :: rest) = "General" := by
      simp only [specRankedChoice, hp1]
      rfl
    rw [hrc]
    simp [hf, hT, Except.bind, bind, pure, Except.pure]
  | cons t0 ts' =>
    obtain ⟨s0, rfl⟩ := hts t0 (List.mem_cons_self _ _)
    have hT : pyTruthy (PyVal.list (PyVal.str s0 :: ts')) = true := rfl
    have hsub := specSubstring_find (PyVal.str s0 :: ts') (specQText (x :: rest))
    cases hfind : List.find? (subPred (specQText (x :: rest))) (PyVal.str s0 :: ts') with
    | some tf =>
      obtain ⟨sf, rfl⟩ := hts tf (List.mem_of_find?_eq_some hfind)
      have hsub2 : specSubstringMatch (PyVal.str s0 :: ts') (specQText (x :: rest)) =
          Option.some sf := by rw [hsub, hfind]
      by_cases hsf : sf = ""
      · subst hsf
        have hms : pyTruthy (PyVal.str "") = false := rfl
        have hidx : pyIndex0 (PyVal.list (PyVal.str s0 :: ts')) =
            Except.ok (PyVal.str s0) := rfl
        by_cases hs0 : s0 = ""
        · subst hs0
          have hrc : specRankedChoice qes (PyVal.str "" :: ts') (x :: rest) =
              "General" := by
            simp only [specRankedChoice, hp1, hsub2, stagePick_empty, headTopic_cons_str]
          rw [hrc]
          simp [hf, hT, hqt, pyIter, hfind, hms, hidx, Except.bind, bind, pure,
            Except.pure]
        · have hs0T : pyTruthy (PyVal.str s0) = true := by simp [pyTruthy, hs0]
          have hrc : specRankedChoice qes (PyVal.str s0 :: ts') (x :: rest) = s0 := by
            simp only [specRankedChoice, hp1, hsub2, stagePick_empty, headTopic_cons_str,
              stagePick_some s0 hs0]
          rw [hrc]
          simp [hf, hT, hqt, pyIter, hfind, hms, hidx, hs0T, Except.bind, bind, pure,
            Except.pure]
      · have hmsT : pyTruthy (PyVal.str sf) = true := by simp [pyTruthy, hsf]
        have hrc : specRankedChoice qes (PyVal.str s0 :: ts') (x :: rest) = sf := by
          simp only [specRankedChoice, hp1, hsub2, stagePick_some sf hsf]
        rw [hrc]
        simp [hf, hT, hqt, pyIter, hfind, hmsT, Except.bind, bind, pure, Except.pure]
    | none =>
      have hsub2 : specSubstringMatch (PyVal.str s0 :: ts') (specQText (x :: rest)) =
          Option.none := by rw [hsub, hfind]
      have hmn : pyTruthy PyVal.none = false := rfl
      have hms : pyTruthy (PyVal.str "") = false := rfl
      have hidx : pyIndex0 (PyVal.list (PyVal.str s0 :: ts')) =
          Except.ok (PyVal.str s0) := rfl
      by_cases hs0 : s0 = ""
      · subst hs0
        have hrc : specRankedChoice qes (PyVal.str "" :: ts') (x :: rest) =
            "General" := by
          simp only [specRankedChoice, hp1, hsub2, stagePick_none, headTopic_cons_str,
            stagePick_empty]
        rw [hrc]
        simp [hf, hT, hqt, pyIter, hfind, hmn, hms, hidx, Except.bind, bind, pure,
          Except.pure]
      · have hs0T : pyTruthy (PyVal.str s0) = true := by simp [pyTruthy, hs0]
        have hrc : specRankedChoice qes (PyVal.str s0 :: ts') (x :: rest) = s0 := by
          simp only [specRankedChoice, hp1, hsub2, stagePick_none, headTopic_cons_str,
            stagePick_some s0 hs0]
        rw [hrc]
        simp [hf, hT, hqt, pyIter, hfind, hmn, hidx, hs0T, Except.bind, bind, pure,
          Except.pure]



lemma dictInsert_keys : ∀ (d : PyDict) (key : String) (v : PyVal) (k : String),
    k ∈ (dictInsert d key v).map (fun e => e.1) →
    k ∈ d.map (fun e => e.1) ∨ k = key := by
  intro d
  induction d with
  | nil =>
    intro key v k hk
    rw [show dictInsert [] key v = [(key, v)] from rfl, List.map_cons] at hk
    rcases List.mem_cons.mp hk with rfl | hk
    · exact Or.inr rfl
    · simp at hk
  | cons e rest ih =>
    intro key v k hk
    obtain ⟨k', v'⟩ := e
    by_cases he : k' = key
    · rw [show dictInsert ((k', v') :: rest) key v = (k', v) :: rest from by
        simp [dictInsert, he], List.map_cons] at hk
      rcases List.mem_cons.mp hk with rfl | hk
      · exact Or.inr he
      · exact Or.inl (by rw [List.map_cons]; exact List.mem_cons_of_mem _ hk)
    · rw [show dictInsert ((k', v') :: rest) key v = (k', v') :: dictInsert rest key v
        from by simp [dictInsert, he], List.map_cons] at hk
      rcases List.mem_cons.mp hk with rfl | hk
      · exact Or.inl (by rw [List.map_cons]; exact List.mem_cons_self _ _)
      · rcases ih key v k hk with h | h
        · exact Or.inl (by rw [List.map_cons]; exact List.mem_cons_of_mem _ h)
        · exact Or.inr h

lemma buildSeq_keys (schedule : PyVal) (today : Nat) :
    ∀ (tks : List PyVal) (i : Nat) (acc d : PyDict),
    buildSeqScheduleAux schedule today i tks acc = .ok d →
    ∀ k ∈ d.map (fun e => e.1), k ∈ acc.map (fun e => e.1) ∨ pyDateMatch k = true := by
  intro tks
  induction tks with
  | nil =>
    intro i acc d h k hk
    simp only [buildSeqScheduleAux] at h
    cases h
    exact Or.inl hk
  | cons tname rest ih =>
    intro i acc d h k hk
    simp only [buildSeqScheduleAux] at h
    cases hadd : addDays today i with
    | none => rw [hadd] at h; simp at h
    | some dd =>
      rw [hadd] at h
      cases hv : pyDictGetKeyV schedule tname with
      | error e => rw [hv] at h; simp [bind, Except.bind] at h
      | ok v =>
        rw [hv] at h
        simp only [bind, Except.bind] at h
        rcases ih (i + 1) _ d h k hk with hmem | hdate
        · rcases dictInsert_keys acc (isoOfOrd dd) _ k hmem with h2 | h2
          · exact Or.inl h2
          · subst h2
            exact Or.inr (pyDateMatch_isoOfOrd dd)
        · exact Or.inr hdate

lemma autoFill_keys (topics : PyVal) (anchor : Nat) :
    ∀ (n i : Nat) (acc d : PyDict),
    autoFillAux topics anchor i n acc = .ok d →
    ∀ k ∈ d.map (fun e => e.1), k ∈ acc.map (fun e => e.1) ∨ pyDateMatch k = true := by
  intro n
  induction n with
  | zero =>
    intro i acc d h k hk
    simp only [autoFillAux] at h
    cases h
    exact Or.inl hk
  | succ m ih =>
    intro i acc d h k hk
    simp only [autoFillAux] at h
    cases hadd : addDays anchor i with
    | none => rw [hadd] at h; simp at h
    | some dd =>
      rw [hadd] at h
      cases hs : pySlice2 topics (i * 2) with
      | error e => rw [hs] at h; simp [bind, Except.bind] at h
      | ok slice =>
        rw [hs] at h
        simp only [bind, Except.bind] at h
        rcases ih (i + 1) _ d h k hk with hmem | hdate
        · rcases dictInsert_keys acc (isoOfOrd dd) _ k hmem with h2 | h2
          · exact Or.inl h2
          · subst h2
            exact Or.inr (pyDateMatch_isoOfOrd dd)
        · exact Or.inr hdate

lemma normValsAux_keys (quizzes topics : PyVal) :
    ∀ (es d : PyDict), normValsAux quizzes topics es = .ok d →
    d.map (fun e => e.1) = es.map (fun e => e.1) := by
  intro es
  induction es with
  | nil =>
    intro d h
    simp only [normValsAux] at h
    cases h
    rfl
  | cons e rest ih =>
    intro d h
    simp only [normValsAux] at h
    cases hv : normSchedValue quizzes topics e.2 with
    | error er => rw [hv] at h; simp [bind, Except.bind] at h
    | ok v' =>
      rw [hv] at h
      simp only [bind, Except.bind] at h
      cases hr : normValsAux quizzes topics rest with
      | error er => rw [hr] at h; simp [bind, Except.bind] at h
      | ok rest' =>
        rw [hr] at h
        simp only [bind, Except.bind] at h
        cases h
        simp [ih rest' hr]

lemma valuesNorm_keys (schedule quizzes topics sched3 : PyVal)
    (h : scheduleValuesNorm schedule quizzes topics = .ok sched3) :
    pyKeys sched3 = pyKeys schedule := by
  cases schedule with
  | dict es =>
    simp only [scheduleValuesNorm] at h
    cases hn : normValsAux quizzes topics es with
    | error er => rw [hn] at h; simp [bind, Except.bind] at h
    | ok es' =>
      rw [hn] at h
      simp only [bind, Except.bind] at h
      cases h
      simp [pyKeys, normValsAux_keys quizzes topics es es' hn]
  | none => cases h; rfl
  | bool b => cases h; rfl
  | int n => cases h; rfl
  | str s => cases h; rfl
  | list l => cases h; rfl

lemma keysAreDates_mem (schedule : PyVal) (h : keysAreDates schedule = true) :
    ∀ k ∈ pyKeys schedule, pyDateMatch k = true := by
  intro k hk
  cases schedule with
  | dict es =>
    simp only [keysAreDates, Bool.and_eq_true] at h
    simp only [pyKeys] at hk
    obtain ⟨e, he, rfl⟩ := List.mem_map.mp hk
    exact List.all_eq_true.mp h.2 e he
  | none => simp [keysAreDates] at h
  | bool b => simp [keysAreDates] at h
  | int n => simp [keysAreDates] at h
  | str s => simp [keysAreDates] at h
  | list l => simp [keysAreDates] at h

lemma finalSchedule_keys (v : PyVal) :
    ∀ k ∈ pyKeys (finalSchedule v), k ∈ pyKeys v ∨ k = "" := by
  intro k hk
  cases v with
  | dict es => exact Or.inl hk
  | none => simp [finalSchedule, pyTruthy, pyKeys] at hk
  | bool b =>
    simp only [finalSchedule] at hk
    split at hk
    · simp [pyKeys] at hk
      exact Or.inr hk
    · simp [pyKeys] at hk
  | int n =>
    simp only [finalSchedule] at hk
    split at hk
    · simp [pyKeys] at hk
      exact Or.inr hk
    · simp [pyKeys] at hk
  | str s =>
    simp only [finalSchedule] at hk
    split at hk
    · simp [pyKeys] at hk
      exact Or.inr hk
    · simp [pyKeys] at hk
  | list l =>
    simp only [finalSchedule] at hk
    split at hk
    · simp [pyKeys] at hk
      exact Or.inr hk
    · simp [pyKeys] at hk

lemma parseSchedV_keys (raw : PyVal) (parsed : PyDict)
    (h : parseScheduleFromTextV raw = .ok parsed) (hne : parsed ≠ []) :
    ∀ k ∈ parsed.map (fun e => e.1), k ∈ rawSchedKeys raw := by
  intro k hk
  unfold parseScheduleFromTextV at h
  split at h
  · cases h
    exact absurd rfl hne
  · cases raw with
    | str s =>
      cases h
      simpa [rawSchedKeys] using hk
    | none => simp at h
    | bool b => simp at h
    | int n => simp at h
    | list l => simp at h
    | dict d => simp at h

lemma computeTopicKeys_dict_ne (es : PyDict) (quizzes topics : PyVal)
    (hne : es ≠ []) : computeTopicKeys (.dict es) quizzes topics ≠ [] := by
  unfold computeTopicKeys
  have h1 : ¬ (es.map fun e => PyVal.str e.1) = [] := by
    simpa using hne
  simp [hne, h1]

lemma keyFix_keys (schedule raw quizzes topics : PyVal) (today : Nat) (sched2 : PyVal)
    (h : scheduleKeyFix schedule raw quizzes topics today = .ok sched2) :
    ∀ k ∈ pyKeys sched2, pyDateMatch k = true ∨ k ∈ rawSchedKeys raw := by
  intro k hk
  unfold scheduleKeyFix at h
  split at h
  · rename_i hkad
    injection h with h
    subst h
    exact Or.inl (keysAreDates_mem _ hkad k hk)
  · rename_i hkad
    cases hp : parseScheduleFromTextV raw with
    | error e => rw [hp] at h; simp [bind, Except.bind] at h
    | ok parsed =>
      rw [hp] at h
      simp only [bind, Except.bind] at h
      split at h
      · rename_i hpne
        injection h with h
        subst h
        have hne2 : parsed ≠ [] := by
          intro hc
          rw [hc] at hpne
          simp at hpne
        exact Or.inr (parseSchedV_keys raw parsed hp hne2 k hk)
      · split at h
        · rename_i hpe htks
          injection h with h
          subst h
          exfalso
          cases schedule with
          | dict es =>
            by_cases hes : es = []
            · subst hes
              simp [pyKeys] at hk
            · exact computeTopicKeys_dict_ne es quizzes topics hes
                (by simpa using htks)
          | none => simp [pyKeys] at hk
          | bool b => simp [pyKeys] at hk
          | int n => simp [pyKeys] at hk
          | str s => simp [pyKeys] at hk
          | list l => simp [pyKeys] at hk
        · cases hb : buildSeqScheduleAux schedule today 0
              (computeTopicKeys schedule quizzes topics) [] with
          | error e => rw [hb] at h; simp [bind, Except.bind] at h
          | ok d =>
            rw [hb] at h
            simp only [bind, Except.bind] at h
            injection h with h
            subst h
            rcases buildSeq_keys schedule today _ 0 [] d hb k (by simpa [pyKeys] using hk)
              with h2 | h2
            · simp at h2
            · exact Or.inl h2

lemma autoGen_keys (schedule topics : PyVal) (days : Option Int)
    (exam : Option String) (today : Nat) :
    ∀ k ∈ pyKeys (autoGenSchedule schedule topics days exam today),
      k ∈ pyKeys schedule ∨ pyDateMatch k = true := by
  intro k hk
  unfold autoGenSchedule at hk
  cases hatt : autoGenAttempt schedule topics days exam today with
  | error e =>
    rw [hatt] at hk
    exact Or.inl hk
  | ok s =>
    rw [hatt] at hk
    unfold autoGenAttempt at hatt
    split at hatt
    · cases hpl : pyLen topics with
      | error e => rw [hpl] at hatt; simp [bind, Except.bind] at hatt
      | ok tlen =>
        rw [hpl] at hatt
        simp only [bind, Except.bind] at hatt
        split at hatt
        · rename_i ed
          split at hatt
          · rename_i d hea
            injection hatt with hatt
            subst hatt
            unfold examAnchorAttempt at hea
            split at hea
            · simp at hea
            · split at hea
              · simp at hea
              · rcases autoFill_keys topics _ _ 0 [] d hea k
                  (by simpa [pyKeys] using hk) with h2 | h2
                · simp at h2
                · exact Or.inr h2
          · cases haf : autoFillAux topics today 0 (autoDayCount tlen days) [] with
            | error e2 => rw [haf] at hatt; simp [bind, Except.bind] at hatt
            | ok d =>
              rw [haf] at hatt
              simp only [bind, Except.bind] at hatt
              injection hatt with hatt
              subst hatt
              rcases autoFill_keys topics today _ 0 [] d haf k
                (by simpa [pyKeys] using hk) with h2 | h2
              · simp at h2
              · exact Or.inr h2
        · cases haf : autoFillAux topics today 0 (autoDayCount tlen days) [] with
          | error e2 => rw [haf] at hatt; simp [bind, Except.bind] at hatt
          | ok d =>
            rw [haf] at hatt
            simp only [bind, Except.bind] at hatt
            injection hatt with hatt
            subst hatt
            rcases autoFill_keys topics today _ 0 [] d haf k
              (by simpa [pyKeys] using hk) with h2 | h2
            · simp at h2
            · exact Or.inr h2
    · injection hatt with hatt
      subst hatt
      exact Or.inl hk



lemma decodeMap_id : ∀ (sched : PyDict),
    sched.all (fun e => canonValOK e.2) = true →
    sched.map (fun e => (e.1, tryLoadJson e.2)) = sched := by
  intro sched h
  induction sched with
  | nil => rfl
  | cons e rest ih =>
    have he : canonValOK e.2 = true := List.all_eq_true.mp h e (List.mem_cons_self _ _)
    have hrest : rest.all (fun e => canonValOK e.2) = true := by
      apply List.all_eq_true.mpr
      intro x hx
      exact List.all_eq_true.mp h x (List.mem_cons_of_mem _ hx)
    rw [List.map_cons, ih hrest]
    obtain ⟨k, v⟩ := e
    have hv : canonValOK v = true := he
    cases v with
    | list xs => rfl
    | none => simp [canonValOK] at hv
    | bool b => simp [canonValOK] at hv
    | int n => simp [canonValOK] at hv
    | str s => simp [canonValOK] at hv
    | dict d => simp [canonValOK] at hv

lemma filterMap_strs_id : ∀ (xs : List PyVal), xs.all strFixed = true →
    (xs.filterMap itemToString).map PyVal.str = xs := by
  intro xs h
  induction xs with
  | nil => rfl
  | cons x rest ih =>
    have hx : strFixed x = true := List.all_eq_true.mp h x (List.mem_cons_self _ _)
    have hrest : rest.all strFixed = true := by
      apply List.all_eq_true.mpr
      intro a ha
      exact List.all_eq_true.mp h a (List.mem_cons_of_mem _ ha)
    cases x with
    | str s =>
      have hs : pyStrip s = s := by simpa [strFixed] using hx
      rw [show (PyVal.str s :: rest).filterMap itemToString =
          pyStrip s :: rest.filterMap itemToString from by
        simp [List.filterMap_cons, itemToString]]
      rw [List.map_cons, hs, ih hrest]
    | none => simp [strFixed] at hx
    | bool b => simp [strFixed] at hx
    | int n => simp [strFixed] at hx
    | list l => simp [strFixed] at hx
    | dict d => simp [strFixed] at hx

lemma normSchedValue_id (q t v : PyVal) (h : canonValOK v = true) :
    normSchedValue q t v = .ok v := by
  cases v with
  | list xs =>
    cases xs with
    | nil => simp [canonValOK] at h
    | cons x rest =>
      simp only [canonValOK, Bool.and_eq_true] at h
      obtain ⟨-, hall⟩ := h
      have hx : strFixed x = true := List.all_eq_true.mp hall x (List.mem_cons_self _ _)
      cases x with
      | str s =>
        simp only [normSchedValue]
        rw [if_neg (by simp [isQuestionItem])]
        have hfm := filterMap_strs_id (PyVal.str s :: rest) hall
        cases hni : (PyVal.str s :: rest).filterMap itemToString with
        | nil => rw [hni] at hfm; simp at hfm
        | cons y ys =>
          rw [hni] at hfm
          simp [hfm]
      | none => simp [strFixed] at hx
      | bool b => simp [strFixed] at hx
      | int n => simp [strFixed] at hx
      | list l => simp [strFixed] at hx
      | dict d => simp [strFixed] at hx
  | none => simp [canonValOK] at h
  | bool b => simp [canonValOK] at h
  | int n => simp [canonValOK] at h
  | str s => simp [canonValOK] at h
  | dict d => simp [canonValOK] at h

lemma normValsAux_id (q t : PyVal) : ∀ (sched : PyDict),
    sched.all (fun e => canonValOK e.2) = true →
    normValsAux q t sched = .ok sched := by
  intro sched h
  induction sched with
  | nil => rfl
  | cons e rest ih =>
    have he : canonValOK e.2 = true := List.all_eq_true.mp h e (List.mem_cons_self _ _)
    have hrest : rest.all (fun e => canonValOK e.2) = true := by
      apply List.all_eq_true.mpr
      intro a ha
      exact List.all_eq_true.mp h a (List.mem_cons_of_mem _ ha)
    obtain ⟨k, v⟩ := e
    simp only [normValsAux]
    rw [normSchedValue_id q t v he, ih hrest]
    rfl

lemma c6_core (t0 : String) (ts' : List String) (sched nd qd : PyDict) (today : Nat)
    (hkeys : keysAreDates (.dict sched) = true)
    (hlen : 2 ≤ sched.length)
    (hvals : sched.all (fun e => canonValOK e.2) = true) :
    planFromFields (.list (PyVal.str t0 :: List.map PyVal.str ts')) (.dict sched)
      (.dict nd) (.dict qd) (.str "") Option.none "" Option.none Option.none today =
      .ok ⟨.list (PyVal.str t0 :: List.map PyVal.str ts'), .dict sched, .dict nd,
           .dict qd, .str ""⟩ := by
  have hdec : scheduleDecodeValues (scheduleListFix (.dict sched)) = .dict sched := by
    simp only [scheduleListFix, scheduleDecodeValues]
    rw [decodeMap_id sched hvals]
  have hkf : scheduleKeyFix (.dict sched) (.str "") (.dict qd)
      (.list (PyVal.str t0 :: List.map PyVal.str ts')) today = .ok (.dict sched) := by
    unfold scheduleKeyFix
    rw [if_pos hkeys]
  have hvn : scheduleValuesNorm (.dict sched) (.dict qd)
      (.list (PyVal.str t0 :: List.map PyVal.str ts')) = .ok (.dict sched) := by
    simp only [scheduleValuesNorm]
    rw [normValsAux_id _ _ sched hvals]
    rfl
  have hder : deriveTopics (.list (PyVal.str t0 :: List.map PyVal.str ts'))
      (.dict sched) (.dict qd) = .list (PyVal.str t0 :: List.map PyVal.str ts') := rfl
  have hsyl : syllabusTopicsFix (.list (PyVal.str t0 :: List.map PyVal.str ts')) "" =
      .ok (.list (PyVal.str t0 :: List.map PyVal.str ts')) := by
    simp [syllabusTopicsFix, pyTruthy, pyLen, bind, Except.bind, pure, Except.pure]
  have hns : notesSalvageStage (.dict nd) (.str "") = .ok (.dict nd) := by
    unfold notesSalvageStage
    have h0 : pyTruthy (PyVal.str "") = false := rfl
    rw [h0]
    simp
  have hqbf : quizBlobFix (.dict qd) Option.none = .ok (.dict qd) := rfl
  have hag : autoGenSchedule (.dict sched)
      (.list (PyVal.str t0 :: List.map PyVal.str ts')) Option.none Option.none today =
      .dict sched := by
    have hne : sched.isEmpty = false := by
      cases sched with
      | nil => simp at hlen
      | cons a b => rfl
    have h2 : ¬ (sched.length ≤ 1) := by omega
    have hcond : autoGenCond (.dict sched)
        (.list (PyVal.str t0 :: List.map PyVal.str ts')) = false := by
      simp [autoGenCond, pyTruthy, hne, h2]
    simp [autoGenSchedule, autoGenAttempt, hcond]
  simp only [planFromFields, planTail, hdec, hkf, hvn, hder, hsyl, hns, hqbf, hag]
  rfl

/-! ### Claim theorems -/

/-- C1: the claim says `normalize` never raises, in particular when the
notes field is a string that is not valid JSON.  The code contradicts
it: line 245 decodes a string-valued notes field with strict
`json.loads`, so the producer result with `notes = "hello"` raises
`JSONDecodeError` (for every current date). -/
theorem c1_notes_string_raises :
    ∀ today : Nat,
      planNormalize c1FailingResult "" Option.none Option.none today =
        .error "JSONDecodeError" :=
  fun _ => rfl

/-- C7 (Scenario A): raw text `- 2025-01-01: Intro\n- 2025-01-02:
Loops` with all producer fields empty yields the schedule
`{2025-01-01: [Intro], 2025-01-02: [Loops]}` and topics
`[Intro, Loops]`, for every current date. -/
theorem c7_scenario_a :
    ∀ today : Nat,
      planNormalize scenarioAResult "" Option.none Option.none today =
        .ok ⟨.list [.str "Intro", .str "Loops"],
             .dict [("2025-01-01", .list [.str "Intro"]),
                    ("2025-01-02", .list [.str "Loops"])],
             .dict [], .dict [],
             .str "- 2025-01-01: Intro\n- 2025-01-02: Loops"⟩ :=
  fun _ => rfl

/-- C8 (Scenario D): empty schedule, 4 topics, target date 2025-03-10,
no day count: the auto-generated schedule has exactly ceil(4/2) = 2
entries, consecutive dates walking backward from the target, the last
key being 2025-03-10 — for every current date. -/
theorem c8_scenario_d :
    ∀ today : Nat,
      planNormalize scenarioDResult "" (Option.some "2025-03-10") Option.none today =
        .ok ⟨.list [.str "t1", .str "t2", .str "t3", .str "t4"],
             .dict [("2025-03-09", .list [.str "t1", .str "t2"]),
                    ("2025-03-10", .list [.str "t3", .str "t4"])],
             .dict [], .dict [], .str ""⟩ ∧
      (["2025-03-09", "2025-03-10"].getLast? = Option.some "2025-03-10" ∧
       ["2025-03-09", "2025-03-10"].all strictDateMatch = true ∧
       fromIsoOrd "2025-03-09" = Option.some (ymd2ord 2025 3 10 - 1) ∧
       fromIsoOrd "2025-03-10" = Option.some (ymd2ord 2025 3 10)) :=
  fun _ => ⟨rfl, by decide, by decide, by decide, by decide⟩

/-- C2 counterexample: with a raw text embedding a JSON `schedule`
object whose keys are `Arrays`/`Loops`, the returned schedule keeps
those keys verbatim — they do not match `^\d{4}-\d{2}-\d{2}$`. -/
theorem c2_counterexample :
    (planNormalize c2Result "" Option.none Option.none 739000).map
        (fun d => pyKeys d.schedule) = .ok ["Arrays", "Loops"] ∧
      strictDateMatch "Arrays" = false ∧ pyDateMatch "Arrays" = false :=
  ⟨rfl, rfl, rfl⟩

/-- C3 counterexample: producer topics `["A", "a"]` pass through
untouched, so the returned topics hold two entries equal under
case-insensitive comparison. -/
theorem c3_counterexample :
    (planNormalize c3Result "" Option.none Option.none 739000).map
        (fun d => d.topics) = .ok (.list [.str "A", .str "a"]) ∧
      lowerS "A" = lowerS "a" ∧ "A" ≠ "a" :=
  ⟨rfl, rfl, by decide⟩

/-- C4 counterexample: for Scenario B's producer result the two
generated values are the original values `["q1"]` and `["q2"]` (kept
because they are lists of strings), not `["Arrays"]`/`["Loops"]` as
the claim states. -/
theorem c4_counterexample :
    (planNormalize scenarioBResult "" Option.none Option.none 739000).map
        (fun d => d.schedule) =
      .ok (.dict [(isoOfOrd 739000, .list [.str "q1"]),
                  (isoOfOrd 739001, .list [.str "q2"])]) ∧
      PyVal.list [.str "q1"] ≠ .list [.str "Arrays"] :=
  ⟨rfl, by decide⟩

/-- C5 counterexample: when both parses fail, `try_load_json` returns
the stripped string, not the original string unchanged. -/
theorem c5_counterexample :
    tryLoadJson (.str " hello ") = .str "hello" ∧
      PyVal.str "hello" ≠ .str " hello " :=
  ⟨rfl, by decide⟩

/-- C6 counterexample: the already-canonical document with topics
`["A"]` and empty schedule is not a fixed point — normalization
auto-generates a non-empty schedule. -/
theorem c6_counterexample :
    (planNormalize c6Result "" Option.none Option.none 739000).map
        (fun d => d.schedule) =
      .ok (.dict [(isoOfOrd 739000, .list [.str "A"])]) ∧
      PyVal.dict [(isoOfOrd 739000, .list [.str "A"])] ≠ .dict [] :=
  ⟨rfl, by decide⟩

/-- C9 counterexample: with topics `[""]` (which exist) and no
quizzes, the claim's ranked strategy picks the first topic whose name
occurs in the question text — the empty string occurs in every text —
yet the code emits `["General"]` because a falsy match is discarded. -/
theorem c9_counterexample :
    normSchedValue (.dict []) (.list [.str ""])
        (.list [.dict [("question", .str "q")]]) =
      .ok (.list [.str "General"]) ∧
      strContainsSub (lowerS "") (lowerS "q") = true ∧
      PyVal.str "General" ≠ .str "" :=
  ⟨rfl, rfl, by decide⟩

/-- C5 (amended): a mapping or sequence is returned unchanged, `None`
returns `None`, the single-quote repair turns `"{'a': 1}"` into the
mapping `{a: 1}`, and when both parses fail the stripped string is
returned. -/
theorem c5_amended :
    (∀ es : PyDict, tryLoadJson (.dict es) = .dict es) ∧
    (∀ xs : List PyVal, tryLoadJson (.list xs) = .list xs) ∧
    tryLoadJson .none = .none ∧
    tryLoadJson (.str "\x7b'a': 1\x7d") = .dict [("a", .int 1)] ∧
    (∀ s : String, jsonParse (pyStrip s) = Option.none →
      jsonParse (replQuotes (pyStrip s)) = Option.none →
      tryLoadJson (.str s) = .str (pyStrip s)) := by
  refine ⟨fun _ => rfl, fun _ => rfl, rfl, rfl, fun s h1 h2 => ?_⟩
  unfold tryLoadJson
  by_cases he : pyStrip s = ""
  · simp [he]
  · simp [he, h1, h2]

/-- Application of the amended C5 at a concrete malformed string,
discharging both parse-failure hypotheses. -/
theorem c5_amended_witness :
    tryLoadJson (.str " not json ") = .str "not json" :=
  c5_amended.2.2.2.2 " not json " (by decide) (by decide)

/-- C4 (amended): for Scenario B's producer result, with any valid
`today` ordinal, the output schedule has exactly the two sequential
date keys starting today, both matching the strict date pattern, and
each key's value is the corresponding ORIGINAL value (`["q1"]`,
`["q2"]`) because those values are lists of strings. -/
theorem c4_amended (today : Nat) (h1 : 1 ≤ today) (h2 : today + 1 ≤ maxOrdinal) :
    planNormalize scenarioBResult "" Option.none Option.none today =
      .ok ⟨.list [.str "q1", .str "q2"],
           .dict [(isoOfOrd today, .list [.str "q1"]),
                  (isoOfOrd (today + 1), .list [.str "q2"])],
           .dict [], .dict [], .str ""⟩ ∧
    strictDateMatch (isoOfOrd today) = true ∧
    strictDateMatch (isoOfOrd (today + 1)) = true ∧
    isoOfOrd today ≠ isoOfOrd (today + 1) := by
  have hadd0 : addDays today 0 = Option.some today := by
    have h := addDays_eq today 0 (by omega) (by omega)
    simpa using h
  have hadd1 : addDays today 1 = Option.some (today + 1) := addDays_eq today 1 (by omega) h2
  have hne := isoOfOrd_succ_ne today h1 h2
  refine ⟨?_, strictDateMatch_isoOfOrd _, strictDateMatch_isoOfOrd _, hne⟩
  have hkey : scheduleKeyFix
      (.dict [("Arrays", PyVal.list [.str "q1"]), ("Loops", PyVal.list [.str "q2"])])
      (.str "") (.dict []) (.list []) today =
      .ok (.dict [(isoOfOrd today, .list [.str "q1"]),
                  (isoOfOrd (today + 1), .list [.str "q2"])]) := by
    simp [scheduleKeyFix, keysAreDates, parseScheduleFromTextV, computeTopicKeys,
      buildSeqScheduleAux, pyDictGetKeyV, isStrList, dictInsert, dmget, dictGet,
      pyTruthy, pyDateMatch, dateShape, hadd0, hadd1, hne, Except.bind, bind]
  have h0 : planNormalize scenarioBResult "" Option.none Option.none today =
      match scheduleKeyFix
        (.dict [("Arrays", PyVal.list [.str "q1"]), ("Loops", PyVal.list [.str "q2"])])
        (.str "") (.dict []) (.list []) today with
      | .error e => .error e
      | .ok schedule =>
        match scheduleValuesNorm schedule (.dict []) (.list []) with
        | .error e => .error e
        | .ok schedule =>
          planTail schedule (deriveTopics (.list []) schedule (.dict []))
            (.dict []) (.dict []) (.str "") Option.none "" Option.none Option.none today := rfl
  rw [h0, hkey]
  show planTail _ _ _ _ _ _ _ _ _ _ = _
  rfl

/-- Application of the amended C4 at the concrete ordinal 739000
(2024-04-24), discharging both range hypotheses. -/
theorem c4_amended_witness :
    planNormalize scenarioBResult "" Option.none Option.none 739000 =
      .ok ⟨.list [.str "q1", .str "q2"],
           .dict [(isoOfOrd 739000, .list [.str "q1"]),
                  (isoOfOrd 739001, .list [.str "q2"])],
           .dict [], .dict [], .str ""⟩ ∧
    strictDateMatch (isoOfOrd 739000) = true ∧
    strictDateMatch (isoOfOrd 739001) = true ∧
    isoOfOrd 739000 ≠ isoOfOrd 739001 :=
  c4_amended 739000 (by decide) (by decide)

/-- C3 (amended): syllabus-extracted topics are pairwise distinct
case-insensitively; the exact dedup used for topics derived from
schedule values or quiz keys removes only exact duplicates; and a
non-empty producer topics list passes through `deriveTopics`
untouched (no dedup at all). -/
theorem c3_amended :
    (∀ text, (extractTopicsFromSyllabusText text).Pairwise
        (fun a b => lowerS a ≠ lowerS b)) ∧
    (∀ xs : List String, (dedupKeys xs).Pairwise (fun a b => a ≠ b)) ∧
    (∀ (t : PyVal) (ts : List PyVal) (sched quiz : PyVal),
        deriveTopics (.list (t :: ts)) sched quiz = .list (t :: ts)) := by
  refine ⟨?_, ?_, fun t ts sched quiz => rfl⟩
  · intro text
    unfold extractTopicsFromSyllabusText
    by_cases he : text = ""
    · simp [he]
    · rw [if_neg he]
      exact (dedupCIAux_spec _ []).1
  · intro xs
    exact (dedupKeysAux_spec xs []).1

/-- C10: raw text whose only brace-delimited object is bare (no
fenced block anywhere) with fewer than 50 characters between the
braces yields no extracted JSON, and a `None` blob overrides no
producer field. -/
theorem c10_bare_extraction_bound (pre mid post : List Char)
    (hpreb : ∀ c ∈ pre, c ≠ btick) (hmidb : ∀ c ∈ mid, c ≠ btick)
    (hpostb : ∀ c ∈ post, c ≠ btick)
    (hprel : ∀ c ∈ pre, c ≠ lbrace) (hmidl : ∀ c ∈ mid, c ≠ lbrace)
    (hpostl : ∀ c ∈ post, c ≠ lbrace)
    (hmidr : ∀ c ∈ mid, c ≠ rbrace) (hpostr : ∀ c ∈ post, c ≠ rbrace)
    (hlt : mid.length < 50) :
    extractJsonFromTextS (String.mk (pre ++ lbrace :: (mid ++ rbrace :: post))) =
      Option.none ∧
    ∀ result, applyBlobOverride result Option.none = result := by
  refine ⟨?_, fun result => rfl⟩
  have hbt : ∀ c ∈ pre ++ lbrace :: (mid ++ rbrace :: post), c ≠ btick := by
    intro c hc
    simp only [List.mem_append, List.mem_cons] at hc
    rcases hc with h | rfl | h | rfl | h
    · exact hpreb c h
    · decide
    · exact hmidb c h
    · decide
    · exact hpostb c h
  have hlb2 : ∀ c ∈ mid ++ rbrace :: post, c ≠ lbrace := by
    intro c hc
    simp only [List.mem_append, List.mem_cons] at hc
    rcases hc with h | rfl | h
    · exact hmidl c h
    · decide
    · exact hpostl c h
  have hfen : fencedSearchAux
      (String.mk (pre ++ lbrace :: (mid ++ rbrace :: post))).data.length
      (String.mk (pre ++ lbrace :: (mid ++ rbrace :: post))).data = Option.none :=
    fencedSearchAux_none _ _ hbt
  have hbare : bareSearchAux (pre ++ lbrace :: (mid ++ rbrace :: post)).length
      (pre ++ lbrace :: (mid ++ rbrace :: post)) = Option.none := by
    have hlen : (pre ++ lbrace :: (mid ++ rbrace :: post)).length =
        pre.length + ((mid ++ rbrace :: post).length + 1) := by
      simp only [List.length_append, List.length_cons]
    rw [hlen]
    rw [bareSearchAux_skip pre ((mid ++ rbrace :: post).length + 1)
      (lbrace :: (mid ++ rbrace :: post)) hprel]
    rw [bareSearchAux_short (mid ++ rbrace :: post).length mid post hpostr hlt]
    exact bareSearchAux_none _ _ hlb2
  have hbare2 : bareSearchAux
      (String.mk (pre ++ lbrace :: (mid ++ rbrace :: post))).data.length
      (String.mk (pre ++ lbrace :: (mid ++ rbrace :: post))).data = Option.none := hbare
  exact extractJsonFromTextS_none _ hfen hbare2

/-- Application of C10 at a concrete raw text holding one bare
6-character JSON object, discharging every freeness hypothesis. -/
theorem c10_witness :
    extractJsonFromTextS
        (String.mk ("see ".data ++ lbrace :: ("\"a\": 1".data ++ rbrace :: " end".data))) =
      Option.none ∧
    applyBlobOverride [("topics", PyVal.list [])] Option.none =
      [("topics", PyVal.list [])] :=
  ⟨(c10_bare_extraction_bound "see ".data "\"a\": 1".data " end".data
      (by decide) (by decide) (by decide) (by decide) (by decide) (by decide)
      (by decide) (by decide) (by decide)).1,
   (c10_bare_extraction_bound "see ".data "\"a\": 1".data " end".data
      (by decide) (by decide) (by decide) (by decide) (by decide) (by decide)
      (by decide) (by decide) (by decide)).2 _⟩

/-- C9 (amended): for a non-empty list of well-formed question-like
objects, with well-formed quizzes entries and string topics, the
schedule value is replaced by the one-element list naming the topic of
the ranked strategy (exact question-list match, then case-insensitive
substring relevance, then first topic), where a stage's empty-string
result falls through to the next stage and the selected value falls
back to the label General when empty or when no topics exist. -/
theorem c9_amended (qes : PyDict) (ts xs : List PyVal)
    (hne : xs ≠ [])
    (hall : xs.all qItemOK = true)
    (hq : qes.all quizEntryOK = true)
    (hts : isStrList (.list ts) = true) :
    normSchedValue (.dict qes) (.list ts) (.list xs) =
      .ok (.list [.str (specRankedChoice qes ts xs)]) := by
  have hallP : ∀ a ∈ xs, qItemOK a = true := fun a ha => List.all_eq_true.mp hall a ha
  have hqP : ∀ e ∈ qes, ∀ ql, e.2 = PyVal.list ql → ∀ a ∈ ql, qItemOK a = true := by
    intro e he ql hql a ha
    have h1 := List.all_eq_true.mp hq e he
    simp only [quizEntryOK, hql] at h1
    exact List.all_eq_true.mp h1 a ha
  have htsP : ∀ t ∈ ts, ∃ s, t = PyVal.str s := by
    intro t ht
    have h1 := List.all_eq_true.mp (by simpa [isStrList] using hts) t ht
    cases t with
    | str s => exact ⟨s, rfl⟩
    | none => simp at h1
    | bool b => simp at h1
    | int n => simp at h1
    | list l => simp at h1
    | dict d => simp at h1
  clear hall hq hts
  cases xs with
  | nil => exact absurd rfl hne
  | cons x rest =>
  have hall : ∀ a ∈ x :: rest, qItemOK a = true := hallP
  have hq := hqP
  have hts := htsP
  have hx : qItemOK x = true := hall x (List.mem_cons_self _ _)
  have hcond : isQuestionItem x = true := by
    cases x with
    | dict d =>
      cases hg : dictGet d "question" with
      | none => simp [qItemOK, hg] at hx
      | some v => simp [isQuestionItem, hg]
    | none => simp [qItemOK] at hx
    | bool b => simp [qItemOK] at hx
    | int n => simp [qItemOK] at hx
    | str s => simp [qItemOK] at hx
    | list l => simp [qItemOK] at hx
  have hstep : normSchedValue (.dict qes) (.list ts) (.list (x :: rest)) =
      (do
        let m2 ←
          if !pyTruthy (quizExactLoop (x :: rest) qes) && pyTruthy (PyVal.list ts) then do
            let q ← qtextOf (x :: rest)
            let tsv ← pyIter (PyVal.list ts)
            let mSub := (tsv.find? (subPred q)).getD PyVal.none
            if pyTruthy mSub then pure mSub else pyIndex0 (PyVal.list ts)
          else pure (quizExactLoop (x :: rest) qes)
        Except.ok (if pyTruthy m2 then PyVal.list [m2]
          else PyVal.list [PyVal.str "General"])) := by
    simp only [normSchedValue]
    rw [if_pos hcond]
  have hm1 := quizExactLoop_spec (x :: rest) hall qes hq
  rw [hstep]
  cases hspec1 : specExactMatch qes (x :: rest) with
  | some t =>
    have hm1s : quizExactLoop (x :: rest) qes = PyVal.str t := by
      rw [hm1, hspec1]
    by_cases ht : t = ""
    · subst ht
      have hp1 : stagePick (specExactMatch qes (x :: rest)) = Option.none := by
        rw [hspec1]; exact stagePick_empty
      rw [hm1s]
      exact c9_tail_propagate qes ts x rest hall hts (PyVal.str "") rfl hp1
    · have htr : pyTruthy (PyVal.str t) = true := by simp [pyTruthy, ht]
      have hrc : specRankedChoice qes ts (x :: rest) = t := by
        simp only [specRankedChoice, hspec1, stagePick_some t ht]
      rw [hm1s, hrc]
      simp [htr, Except.bind, bind, pure, Except.pure]
  | none =>
    have hm1s : quizExactLoop (x :: rest) qes = PyVal.none := by
      rw [hm1, hspec1]
    have hp1 : stagePick (specExactMatch qes (x :: rest)) = Option.none := by
      rw [hspec1]; exact stagePick_none
    rw [hm1s]
    exact c9_tail_propagate qes ts x rest hall hts PyVal.none rfl hp1

/-- Application of the amended C9 at a concrete exact-match scenario,
discharging all four well-formedness hypotheses. -/
theorem c9_amended_witness :
    normSchedValue
        (.dict [("Algebra", PyVal.list [.dict [("question", PyVal.str "Solve x")]])])
        (.list [PyVal.str "Loops"])
        (.list [PyVal.dict [("question", PyVal.str "Solve x")]]) =
      .ok (.list [.str (specRankedChoice
        [("Algebra", PyVal.list [.dict [("question", PyVal.str "Solve x")]])]
        [PyVal.str "Loops"]
        [PyVal.dict [("question", PyVal.str "Solve x")]])]) :=
  c9_amended _ _ _ (by decide) (by decide) (by decide) (by decide)

/-- C2 (amended): every key of the schedule in a successfully returned
document either matches the code's date test, or is taken verbatim
from the keys recovered from the raw text by
`parse_schedule_from_text`, or is the empty-string key of the final
wrapping fallback. -/
theorem c2_amended (result : PyDict) (syl : String) (exam : Option String)
    (days : Option Int) (today : Nat) (doc : Doc)
    (h : planNormalize result syl exam days today = .ok doc) :
    ∀ k ∈ pyKeys doc.schedule, KeyOK (rawOf result) k := by
  intro k hk
  simp only [planNormalize] at h
  cases hbl : extractJsonFromTextV (rawOf result) with
  | error e => rw [hbl] at h; simp at h
  | ok blob =>
    rw [hbl] at h
    simp only [planFromResult] at h
    cases hni : notesInit (applyBlobOverride result blob) with
    | error e => rw [hni] at h; simp at h
    | ok notes =>
      rw [hni] at h
      simp only [planFromFields] at h
      split at h
      · simp at h
      · rename_i sched2 hkf
        split at h
        · simp at h
        · rename_i sched3 hvn
          unfold planTail at h
          split at h
          · simp at h
          · rename_i topics2 hsf
            split at h
            · simp at h
            · rename_i notes2 hns
              split at h
              · simp at h
              · rename_i quizzes2 hqf
                injection h with h
                subst h
                have hk2 : k ∈ pyKeys (finalSchedule
                    (autoGenSchedule sched3 topics2 days exam today)) := hk
                rcases finalSchedule_keys _ k hk2 with h1 | h1
                · rcases autoGen_keys sched3 topics2 days exam today k h1 with h2 | h2
                  · rw [valuesNorm_keys sched2 _ _ sched3 hvn] at h2
                    rcases keyFix_keys _ (rawOf result) _ _ today sched2 hkf k h2
                      with h3 | h3
                    · exact Or.inl h3
                    · exact Or.inr (Or.inl h3)
                  · exact Or.inl h2
                · exact Or.inr (Or.inr h1)

/-- Application of the amended C2 at a producer result whose raw text
embeds a JSON schedule: the keys `Arrays`/`Loops` survive to the
output and each satisfies the key disjunction. -/
theorem c2_amended_witness :
    planNormalize c2Result "" Option.none Option.none 739000 =
      .ok ⟨.list [.str "a", .str "b"],
           .dict [("Arrays", .list [.str "a"]), ("Loops", .list [.str "b"])],
           .dict [], .dict [],
           .str "\x7b\"schedule\": \x7b\"Arrays\": \"a\", \"Loops\": \"b\"\x7d\x7d"⟩ ∧
    KeyOK (rawOf c2Result) "Arrays" ∧ KeyOK (rawOf c2Result) "Loops" :=
  ⟨rfl,
   c2_amended c2Result "" Option.none Option.none 739000 _ rfl "Arrays" (by decide),
   c2_amended c2Result "" Option.none Option.none 739000 _ rfl "Loops" (by decide)⟩

/-- C6 (amended): normalization is a fixed point on already-canonical
documents fed back with empty raw text — topics a non-empty list of
strings, schedule with at least two date-keyed entries whose values
are non-empty lists of whitespace-trimmed strings, notes and quizzes
mappings.  (The counterexample shows a schedule with at most one entry
is instead replaced by the auto-generation step.) -/
theorem c6_amended (ts : List String) (sched nd qd : PyDict) (today : Nat)
    (hts : ts ≠ [])
    (hkeys : keysAreDates (.dict sched) = true)
    (hlen : 2 ≤ sched.length)
    (hvals : sched.all (fun e => canonValOK e.2) = true) :
    planNormalize
      [("topics", .list (ts.map .str)), ("schedule", .dict sched),
       ("notes", .dict nd), ("quizzes", .dict qd), ("full_markdown", .str "")]
      "" Option.none Option.none today =
      .ok ⟨.list (ts.map .str), .dict sched, .dict nd, .dict qd, .str ""⟩ := by
  cases ts with
  | nil => exact absurd rfl hts
  | cons t0 ts' =>
  cases sched with
  | nil => simp at hlen
  | cons e1 s1 =>
  cases s1 with
  | nil => simp at hlen
  | cons e2 s2 =>
  cases qd with
  | nil =>
    have h1 : planNormalize
        [("topics", .list ((t0 :: ts').map .str)),
         ("schedule", .dict (e1 :: e2 :: s2)), ("notes", .dict nd),
         ("quizzes", .dict []), ("full_markdown", .str "")]
        "" Option.none Option.none today =
        planFromFields (.list (PyVal.str t0 :: List.map PyVal.str ts'))
          (.dict (e1 :: e2 :: s2)) (.dict nd) (.dict []) (.str "") Option.none ""
          Option.none Option.none today := rfl
    rw [h1]
    exact c6_core t0 ts' (e1 :: e2 :: s2) nd [] today hkeys hlen hvals
  | cons q1 qs =>
    have h1 : planNormalize
        [("topics", .list ((t0 :: ts').map .str)),
         ("schedule", .dict (e1 :: e2 :: s2)), ("notes", .dict nd),
         ("quizzes", .dict (q1 :: qs)), ("full_markdown", .str "")]
        "" Option.none Option.none today =
        planFromFields (.list (PyVal.str t0 :: List.map PyVal.str ts'))
          (.dict (e1 :: e2 :: s2)) (.dict nd) (.dict (q1 :: qs)) (.str "") Option.none ""
          Option.none Option.none today := rfl
    rw [h1]
    exact c6_core t0 ts' (e1 :: e2 :: s2) nd (q1 :: qs) today hkeys hlen hvals

/-- Application of the amended C6 at a concrete canonical document,
discharging all four canonical-shape hypotheses. -/
theorem c6_amended_witness :
    planNormalize
      [("topics", .list (["A", "B", "C"].map .str)),
       ("schedule", .dict [("2025-01-01", .list [.str "A"]),
                           ("2025-01-02", .list [.str "B"])]),
       ("notes", .dict []), ("quizzes", .dict []), ("full_markdown", .str "")]
      "" Option.none Option.none 739000 =
      .ok ⟨.list (["A", "B", "C"].map .str),
           .dict [("2025-01-01", .list [.str "A"]),
                  ("2025-01-02", .list [.str "B"])],
           .dict [], .dict [], .str ""⟩ :=
  c6_amended ["A", "B", "C"]
    [("2025-01-01", .list [.str "A"]), ("2025-01-02", .list [.str "B"])] [] [] 739000
    (by decide) (by decide) (by decide) (by decide)


end StudyPlanner
